import Mathlib

/-!
A shallow embedding of the structured-logging library (package `log`):
the tagged `Value` type, `Field`, attribute coercion, the common handler
state machine of the group-aware variant, and the `Level` string
round-trip.  Go machine integers are embedded as `Nat`/`Int` with
explicit two's-complement packing where the code observes the bits.
Side effects are embedded as explicit data: the handler's output buffer
is a `String`, `os.Exit` is an explicit `Bool` in the result of the
Fatal-family control flow, and a Go panic is `Option.none`.
-/

namespace NexuerLog

/-- Go `context.Context`, opaque to the embedded code: the engine only
threads it through to `Replacer` and `Valuer` callbacks and never
inspects it in any code path a claim touches. -/
structure Ctx where
  vals : List (String × Int) := []

/-- The `Kind` enumeration of `Value`, in source order (KindAny = 0). -/
inductive Kind where
  | any
  | bool
  | duration
  | float64
  | int64
  | string
  | time
  | uint64
  | group
  | valuer
  | source
  deriving DecidableEq, Repr

/-- Go `time.Time`, reduced to the observations the embedded code makes:
the absolute instant in nanoseconds since the Unix epoch (unbounded
`Int`; the source checks for int64 overflow explicitly) and the location
name.  The monotonic-clock reading is not modelled: every embedded
operation (`TimeValue`, `Equal`, rendering) strips or ignores it. -/
structure GoTime where
  nanos : Int
  loc : String
  deriving DecidableEq, Repr

/-- UnixNano of the zero `time.Time` (January 1, year 1 UTC):
-62135596800 seconds before the epoch.  It lies outside int64 range,
which is why the source special-cases the zero time. -/
def zeroTimeNanos : Int := -62135596800000000000

/-- `t.IsZero()`: the instant equals the zero time's instant. -/
def GoTime.isZero (t : GoTime) : Bool := t.nanos = zeroTimeNanos

/-- `time.Time.Equal`: compares instants only (location and monotonic
reading are ignored). -/
def GoTime.equalTime (t u : GoTime) : Bool := t.nanos = u.nanos

/-- The `Source` struct: function name, file and line of a caller. -/
structure Source where
  Function : String
  File : String
  Line : Int
  deriving DecidableEq, Repr

/-- Two's-complement uint64 bits of a Go int64 (`uint64(v)`). -/
def toUint64 (v : Int) : Nat := (v % (2 ^ 64 : Int)).toNat

/-- The signed value of uint64 bits read back as int64 (`int64(n)`). -/
def toInt64 (n : Nat) : Int :=
  if n < 2 ^ 63 then (n : Int) else (n : Int) - 2 ^ 64

mutual

/-- The Go struct `Value`: `num` packs the payload bits for the numeric
kinds (or a string length / time nanos), `any` holds the interface
payload, `kind` is the discriminator.  A zero `Value` is
`⟨0, .nil, .any⟩`. -/
inductive Value where
  | mk (num : Nat) (any : GoAny) (kind : Kind)

/-- A `Field` is a key paired with a `Value`. -/
inductive Field where
  | mk (key : String) (value : Value)

/-- The universe of Go `any` payloads the embedded code can store or
receive.  The first group are the package-private wrapper types used in
`Value.any`; the rest are the user-facing types that `AnyValue` and the
attribute coercion distinguish, plus `other` for every unrecognized
dynamic type. -/
inductive GoAny where
  | nil
  | stringptr (s : String)
  | groupptr (fs : List Field)
  | timeLocation (loc : Option String)
  | timeTime (t : GoTime)
  | valuer (f : Option (Ctx → Value))
  | str (s : String)
  | sourcePtr (s : Option Source)
  | intV (n : Int)
  | i8 (n : Int)
  | i16 (n : Int)
  | i32 (n : Int)
  | i64 (n : Int)
  | uintV (n : Nat)
  | u8 (n : Nat)
  | u16 (n : Nat)
  | u32 (n : Nat)
  | u64 (n : Nat)
  | uptr (n : Nat)
  | boolV (b : Bool)
  | dur (n : Int)
  | timeV (t : GoTime)
  | f64 (bits : Nat)
  | f32 (bits : Nat)
  | fields (fs : List Field)
  | valueV (v : Value)
  | fieldV (f : Field)
  | err (msg : String)
  | other (tag : String)

end

/-- `v.Kind()`. -/
def Value.kind : Value → Kind
  | .mk _ _ k => k

/-- The `num` word of a `Value`. -/
def Value.num : Value → Nat
  | .mk n _ _ => n

/-- The `any` payload of a `Value`. -/
def Value.anyPayload : Value → GoAny
  | .mk _ a _ => a

def Field.key : Field → String
  | .mk k _ => k

def Field.value : Field → Value
  | .mk _ v => v

/-- `StringValue`: length in `num`, contents standing in for the
pointer in `any`. -/
def StringValue (s : String) : Value :=
  .mk s.length (.stringptr s) .string

/-- `Int64Value`: two's-complement bits in `num`. -/
def Int64Value (v : Int) : Value :=
  .mk (toUint64 v) .nil .int64

/-- `IntValue` converts to int64. -/
def IntValue (v : Int) : Value := Int64Value v

/-- `Uint64Value`. -/
def Uint64Value (v : Nat) : Value :=
  .mk v .nil .uint64

/-- `UintValue` converts to uint64. -/
def UintValue (v : Nat) : Value := Uint64Value v

/-- `Float64Value`: the IEEE-754 bit pattern (`math.Float64bits`) in
`num`.  The embedding represents a Go float64 by this bit pattern. -/
def Float64Value (bits : Nat) : Value :=
  .mk bits .nil .float64

/-- `BoolValue`. -/
def BoolValue (v : Bool) : Value :=
  .mk (if v then 1 else 0) .nil .bool

/-- `DurationValue`: `v.Nanoseconds()` is the duration itself. -/
def DurationValue (v : Int) : Value :=
  .mk (toUint64 v) .nil .duration

/-- `TimeValue`: the zero time is marked by a nil `*time.Location`; an
instant representable as int64 nanos uses the packed form; otherwise the
general `timeTime` form (monotonic reading stripped).  The source
decides the middle case by `v.Equal(time.Unix(0, v.UnixNano()))`, which
holds exactly when the instant fits in int64 nanos. -/
def TimeValue (v : GoTime) : Value :=
  if v.isZero then .mk 0 (.timeLocation none) .time
  else if -(2 ^ 63 : Int) ≤ v.nanos ∧ v.nanos < 2 ^ 63 then
    .mk (toUint64 v.nanos) (.timeLocation (some v.loc)) .time
  else .mk 0 (.timeTime ⟨v.nanos, v.loc⟩) .time

/-- `SourceValue`: stores the (possibly nil) `*Source` pointer. -/
def SourceValue (v : Option Source) : Value :=
  .mk 0 (.sourcePtr v) .source

/-- `ValuerValue`: stores the (possibly nil) function. -/
def ValuerValue (f : Option (Ctx → Value)) : Value :=
  .mk 0 (.valuer f) .valuer

/-- `isEmptyGroup`: a group with `num = 0`. -/
def Value.isEmptyGroup (v : Value) : Bool :=
  v.kind = Kind.group && v.num = 0

/-- `countEmptyGroups`. -/
def countEmptyGroups (as : List Field) : Nat :=
  (as.filter fun a => a.value.isEmptyGroup).length

/-- `GroupValue`: drops empty nested groups at construction, stores the
element count in `num` and the elements standing in for the slice data
pointer in `any`. -/
def GroupValue (as : List Field) : Value :=
  let as2 := if countEmptyGroups as > 0 then
    as.filter (fun a => !a.value.isEmptyGroup) else as
  .mk as2.length (.groupptr as2) .group

/-- `v.group()`: the slice payload of a group (the source type-asserts
and would panic on a value no constructor produces; those values get
`[]` here). -/
def Value.groupPayload : Value → List Field
  | .mk _ (.groupptr fs) _ => fs
  | _ => []

/-- `v.str()` (unreachable for values no constructor produces). -/
def Value.strPayload : Value → String
  | .mk _ (.stringptr s) _ => s
  | _ => ""

/-- `v.valuer()`: the stored function; a stored nil Go func is `none`. -/
def Value.valuerPayload : Value → Option (Ctx → Value)
  | .mk _ (.valuer f) _ => f
  | _ => none

/-- `v.time()`: reconstructs the instant per the three `TimeValue`
representations. -/
def Value.timePayload : Value → GoTime
  | .mk _ (.timeLocation none) _ => ⟨zeroTimeNanos, "UTC"⟩
  | .mk n (.timeLocation (some loc)) _ => ⟨toInt64 n, loc⟩
  | .mk _ (.timeTime t) _ => t
  | _ => ⟨0, "UTC"⟩

/-- The exact widening conversion `float64(x)` on a float32 bit
pattern: infinities and NaNs keep their class (payload shifted into the
wider mantissa), zeros keep their sign, subnormal float32 values are
renormalized (they are all normal in float64), and normal values are
rebiased with the mantissa shifted up 29 bits. -/
def f32BitsToF64Bits (b : Nat) : Nat :=
  let s := b / 2 ^ 31 % 2
  let e := b / 2 ^ 23 % 2 ^ 8
  let m := b % 2 ^ 23
  if e = 255 then s * 2 ^ 63 + 2047 * 2 ^ 52 + m * 2 ^ 29
  else if e = 0 then
    if m = 0 then s * 2 ^ 63
    else
      let p := Nat.log2 m
      s * 2 ^ 63 + (874 + p) * 2 ^ 52 + (m - 2 ^ p) * 2 ^ (52 - p)
  else s * 2 ^ 63 + (e - 127 + 1023) * 2 ^ 52 + m * 2 ^ 29

/-- `AnyValue`: maps each recognized dynamic type onto the matching
constructor, in source case order; every other payload is stored as
kind `Any`.  Numeric width is not preserved. -/
def AnyValue : GoAny → Value
  | .str s => StringValue s
  | .sourcePtr s => SourceValue s
  | .intV n => IntValue n
  | .uintV n => UintValue n
  | .i64 n => Int64Value n
  | .u64 n => Uint64Value n
  | .boolV b => BoolValue b
  | .dur n => DurationValue n
  | .timeV t => TimeValue t
  | .u8 n => Uint64Value n
  | .u16 n => Uint64Value n
  | .u32 n => Uint64Value n
  | .uptr n => Uint64Value n
  | .i8 n => Int64Value n
  | .i16 n => Int64Value n
  | .i32 n => Int64Value n
  | .f64 bits => Float64Value bits
  | .f32 bits => Float64Value (f32BitsToF64Bits bits)
  | .fields fs => GroupValue fs
  | .valueV v => v
  | .valuer f => ValuerValue f
  | x => .mk 0 x .any

/-- `String(key, value)`. -/
def String' (key value : String) : Field := .mk key (StringValue value)

/-- `Any(key, value)`. -/
def Any' (key : String) (value : GoAny) : Field := .mk key (AnyValue value)

/-- The bad-key sentinel. -/
def badKey : String := "<BAD_KEY>"

/-- `kvsToField`: consumes a prefix of the argument list.  The source is
only ever called on a non-empty slice (`args[0]` would panic on an empty
one); the `[]` case returns the zero Field to make the function total. -/
def kvsToField : List GoAny → Field × List GoAny
  | [] => (.mk "" (.mk 0 .nil .any), [])
  | .str x :: rest =>
    match rest with
    | [] => (String' badKey x, [])
    | v :: rest2 => (Any' x v, rest2)
  | .fieldV f :: rest => (f, rest)
  | x :: rest => (Any' badKey x, rest)

/-- Each `kvsToField` step strictly shrinks a non-empty list. -/
theorem kvsToField_rest_lt (kvs : List GoAny) (h : kvs ≠ []) :
    (kvsToField kvs).2.length < kvs.length := by
  cases kvs with
  | nil => exact absurd rfl h
  | cons x rest => cases x <;> cases rest <;> (simp [kvsToField]; try omega)

/-- `kvsToFieldSlice`: the consumption loop over `kvsToField`. -/
def kvsToFieldSlice (kvs : List GoAny) : List Field :=
  match kvs with
  | [] => []
  | x :: rest =>
    let fr := kvsToField (x :: rest)
    fr.1 :: kvsToFieldSlice fr.2
termination_by kvs.length
decreasing_by
  apply kvsToField_rest_lt
  simp

/-- `Group(key, kvs...)`. -/
def Group' (key : String) (kvs : List GoAny) : Field :=
  .mk key (GroupValue (kvsToFieldSlice kvs))

/-- `f.isEmpty()`: empty key, zero `num` word and nil payload. -/
def Field.isEmpty (f : Field) : Bool :=
  f.key = "" && f.value.num = 0 && f.value.anyPayload matches .nil

/-- NaN test on a float64 bit pattern: exponent all ones, mantissa
non-zero. -/
def isNaNBits64 (b : Nat) : Bool :=
  b / 2 ^ 52 % 2 ^ 11 = 2047 && b % 2 ^ 52 ≠ 0

/-- Zero test on a float64 bit pattern (+0 or -0). -/
def isZeroBits64 (b : Nat) : Bool := b = 0 || b = 2 ^ 63

/-- Go float64 `==` on bit patterns: a NaN equals nothing (itself
included), the two zeros are equal, and any other pair is equal exactly
when the bits coincide. -/
def floatEqBits (a b : Nat) : Bool :=
  if isNaNBits64 a || isNaNBits64 b then false
  else if isZeroBits64 a && isZeroBits64 b then true
  else a = b

/-- Go interface `==` on two `any` payloads, as used by `Value.Equal`
for kind `Any`: different dynamic types compare false; comparable types
compare by value; a non-comparable dynamic type (funcs, slices, or any
type containing `Value`, which carries a `[0]func()` field precisely to
forbid `==`) panics, which is `none`.  Pointer payloads (`stringptr`,
`groupptr`) compare by pointer identity in Go, which a pure embedding
cannot observe; they are mapped to `none` and are unreachable at kind
`Any` through the constructors anyway. -/
def anyEq : GoAny → GoAny → Option Bool
  | .nil, .nil => some true
  | .stringptr _, .stringptr _ => none
  | .groupptr _, .groupptr _ => none
  | .timeLocation a, .timeLocation b => some (a == b)
  | .timeTime a, .timeTime b => some (a == b)
  | .valuer _, .valuer _ => none
  | .str a, .str b => some (a == b)
  | .sourcePtr a, .sourcePtr b => some (a == b)
  | .intV a, .intV b => some (a == b)
  | .i8 a, .i8 b => some (a == b)
  | .i16 a, .i16 b => some (a == b)
  | .i32 a, .i32 b => some (a == b)
  | .i64 a, .i64 b => some (a == b)
  | .uintV a, .uintV b => some (a == b)
  | .u8 a, .u8 b => some (a == b)
  | .u16 a, .u16 b => some (a == b)
  | .u32 a, .u32 b => some (a == b)
  | .u64 a, .u64 b => some (a == b)
  | .uptr a, .uptr b => some (a == b)
  | .boolV a, .boolV b => some (a == b)
  | .dur a, .dur b => some (a == b)
  | .timeV a, .timeV b => some (a == b)
  | .f64 a, .f64 b => some (floatEqBits a b)
  | .f32 a, .f32 b => some (floatEqBits (f32BitsToF64Bits a) (f32BitsToF64Bits b))
  | .fields _, .fields _ => none
  | .valueV _, .valueV _ => none
  | .fieldV _, .fieldV _ => none
  | .err a, .err b => some (a == b)
  | .other a, .other b => some (a == b)
  | _, _ => some false

mutual

/-- `Value.Equal`: kind mismatch is false; raw bits for the inline
numeric kinds, content for strings, IEEE `==` for floats, instants for
times, interface `==` for `Any` (may panic), always-false for Valuers,
element-wise recursion for groups; the default branch (kind `Source`)
panics.  `none` is a panic. -/
def Value.equal : Value → Value → Option Bool
  | .mk n a k, .mk n2 a2 k2 =>
    if k ≠ k2 then some false
    else match k with
    | .int64 => some (n == n2)
    | .uint64 => some (n == n2)
    | .bool => some (n == n2)
    | .duration => some (n == n2)
    | .string => some ((Value.mk n a k).strPayload == (Value.mk n2 a2 k2).strPayload)
    | .float64 => some (floatEqBits n n2)
    | .time => some ((Value.mk n a k).timePayload.equalTime (Value.mk n2 a2 k2).timePayload)
    | .any => anyEq a a2
    | .valuer => some false
    | .group =>
      match a, a2 with
      | .groupptr fs, .groupptr gs => fieldsEqualGo fs gs
      | _, _ => none
    | .source => none

/-- `Field.Equal`: key equality short-circuits before the value
comparison. -/
def Field.equal : Field → Field → Option Bool
  | .mk k v, .mk k2 v2 =>
    if k ≠ k2 then some false else Value.equal v v2

/-- `slices.EqualFunc(…, Field.Equal)`: the length check comes first, so
unequal lengths never compare (and never panic on) any element. -/
def fieldsEqualGo (as bs : List Field) : Option Bool :=
  if as.length ≠ bs.length then some false
  else fieldsEqualPairs as bs

/-- The element-wise loop of `slices.EqualFunc`, stopping at the first
unequal pair or propagating a panic. -/
def fieldsEqualPairs : List Field → List Field → Option Bool
  | a :: as, b :: bs =>
    match Field.equal a b with
    | none => none
    | some false => some false
    | some true => fieldsEqualPairs as bs
  | _, _ => some true

end

/-- `ResolveValuer`. -/
def ResolveValuer (ctx : Ctx) (f : Ctx → Value) : Value := f ctx

/-- `maxValuerValues`. -/
def maxValuerValues : Nat := 100

/-- The loop of `Value.Resolve`: each iteration returns a non-Valuer
value as is, returns a Valuer with a nil function as is, or invokes the
function; running out of iterations yields an `Any` value wrapping the
too-many-times error.  The source's error text interpolates the dynamic
type of the original value; the wrapped message is fixed here.  A Valuer
value whose payload is not a function (no constructor produces one)
panics in `Valuer()` and is turned into an error value by the source's
`recover`. -/
def resolveLoop : Nat → Ctx → Value → Value
  | 0, _, _ => AnyValue (.err "valuer called too many times on Value")
  | n + 1, ctx, v =>
    if v.kind ≠ .valuer then v
    else match v.anyPayload with
    | .valuer none => v
    | .valuer (some f) => resolveLoop n ctx (ResolveValuer ctx f)
    | _ => AnyValue (.err "valuer panicked")

/-- `Value.Resolve`: the 100-iteration loop.  A panic raised by a Go
valuer has no counterpart here because embedded valuer functions are
total; the recover path is modelled only for the type-assertion panic in
`Valuer()`. -/
def Value.resolve (ctx : Ctx) (v : Value) : Value :=
  resolveLoop maxValuerValues ctx v

/-- The ASCII digit for `d < 10`. -/
def digitChar (d : Nat) : Char := Char.ofNat (48 + d)

/-- The value of an ASCII digit. -/
def charDigit (c : Char) : Nat := c.toNat - 48

/-- Little-endian base-10 digits of `n`, with explicit fuel (`fuel ≥ n`
suffices). -/
def natDigitsLE : Nat → Nat → List Nat
  | 0, _ => []
  | fuel + 1, n => if n = 0 then [] else n % 10 :: natDigitsLE fuel (n / 10)

/-- Decimal rendering of a natural number, most significant digit
first, as produced by `strconv`/`fmt`. -/
def natToDecimal (n : Nat) : List Char :=
  if n = 0 then ['0'] else (natDigitsLE n n).reverse.map digitChar

/-- Decimal rendering as a `String`. -/
def natDecS (n : Nat) : String := (natToDecimal n).asString

/-- Signed decimal rendering (`strconv.AppendInt`, `fmt` `%d`). -/
def intDecS (v : Int) : String :=
  if v < 0 then "-" ++ natDecS (-v).toNat else natDecS v.toNat

/-- `strconv.AppendFloat(…, 'g', -1, 64)` shortest-form float text is
not modelled digit for digit; the bit pattern is rendered through this
injective abstract form.  No claim observes float text. -/
def formatFloatBits (b : Nat) : String := "float64-bits-" ++ natDecS b

/-- `time.Duration.String()` unit-suffixed text, abstracted to the
nanosecond count.  No claim observes duration text. -/
def formatDuration (n : Int) : String := intDecS n ++ "ns"

/-- `time.Time.String()` default text, abstracted to instant and
location.  No claim observes time text. -/
def formatTimeDefault (t : GoTime) : String :=
  "time-" ++ intDecS t.nanos ++ "-" ++ t.loc

/-- `appendRFC3339Millis` fixed-millisecond RFC 3339 text, abstracted to
the instant.  No claim observes time text. -/
def formatRFC3339Millis (t : GoTime) : String := "rfc3339-" ++ intDecS t.nanos

/-- `Source.String()`: file, then a colon and the line when non-zero. -/
def Source.stringRep (s : Source) : String :=
  (if s.File ≠ "" then s.File else "") ++
    (if s.Line ≠ 0 then ":" ++ intDecS s.Line else "")

mutual

/-- `Value.append` (the text form used by `Value.String`): the switch
covers String, Int64, Uint64, Float64, Bool, Duration, Time, Group and
Any/Valuer; the default branch — reached by kind `Source` — panics with
a bad-kind message, which is `none` here.  A group whose payload is not
a slice (no constructor produces one) panics in `group()`. -/
def Value.appendFmt : Value → Option String
  | .mk n a k =>
    match k with
    | .string => some (Value.strPayload (.mk n a k))
    | .int64 => some (intDecS (toInt64 n))
    | .uint64 => some (natDecS n)
    | .float64 => some (formatFloatBits n)
    | .bool => some (if n == 1 then "true" else "false")
    | .duration => some (formatDuration (toInt64 n))
    | .time => some (formatTimeDefault (Value.timePayload (.mk n a k)))
    | .group =>
      match a with
      | .groupptr fs => some (fmtFields fs)
      | _ => none
    | .any => some (fmtAny a)
    | .valuer => some (fmtAny a)
    | .source => none

/-- `fmt.Sprint` of an interface payload.  `fmt` never propagates a
panic from a `String`/`Error` method: a nil-pointer receiver prints as
`<nil>` and any other panic as a `%!v(PANIC…)` marker. -/
def fmtAny : GoAny → String
  | .nil => "<nil>"
  | .stringptr s => s
  | .groupptr fs => fmtFields fs
  | .timeLocation (some loc) => loc
  | .timeLocation none => "<nil>"
  | .timeTime t => formatTimeDefault t
  | .valuer _ => "<Valuer>"
  | .str s => s
  | .sourcePtr (some s) => Source.stringRep s
  | .sourcePtr none => "<nil>"
  | .intV n => intDecS n
  | .i8 n => intDecS n
  | .i16 n => intDecS n
  | .i32 n => intDecS n
  | .i64 n => intDecS n
  | .uintV n => natDecS n
  | .u8 n => natDecS n
  | .u16 n => natDecS n
  | .u32 n => natDecS n
  | .u64 n => natDecS n
  | .uptr n => natDecS n
  | .boolV b => if b then "true" else "false"
  | .dur n => formatDuration n
  | .timeV t => formatTimeDefault t
  | .f64 b => formatFloatBits b
  | .f32 b => formatFloatBits (f32BitsToF64Bits b)
  | .fields fs => fmtFields fs
  | .valueV v =>
    match Value.stringRender v with
    | some s => s
    | none => "%!v(PANIC)"
  | .fieldV f => fieldFmt f
  | .err m => m
  | .other tag => tag

/-- `Value.String()`: the string payload directly for kind `String`,
otherwise `append`. -/
def Value.stringRender (v : Value) : Option String :=
  if v.kind = Kind.string then some v.strPayload else Value.appendFmt v

/-- `Field.String()` as `fmt` renders a `Field` element: key, `=`, then
the value's `String()`; a panic inside is caught by `fmt` and rendered
as a marker. -/
def fieldFmt : Field → String
  | .mk k v =>
    match Value.stringRender v with
    | some s => k ++ "=" ++ s
    | none => "%!v(PANIC)"

/-- `fmt` rendering of a `[]Field`: bracketed, space-separated. -/
def fmtFields (fs : List Field) : String := "[" ++ fmtFieldsInner fs ++ "]"

/-- The space-separated element list of a `[]Field` rendering. -/
def fmtFieldsInner : List Field → String
  | [] => ""
  | [f] => fieldFmt f
  | f :: rest => fieldFmt f ++ " " ++ fmtFieldsInner rest

end

/-- `LevelKey`. -/
def LevelKey : String := "level"

/-- `MessageKey`. -/
def MessageKey : String := "msg"

/-- `NameKey`. -/
def NameKey : String := "logger"

/-- `ErrKey`. -/
def ErrKey : String := "err"

/-- A default context for concrete evaluations. -/
def ctx0 : Ctx := ⟨[]⟩

/-- The observable outcome of a Fatal-family call: the message and
key/value list handed to `Log` at `LevelFatal`, and whether the call
reaches `os.Exit(1)` afterwards. -/
structure FatalOutcome where
  msg : String
  kvs : List GoAny
  exits : Bool

/-- `Logger.FatalS` (src/logger.go): a nil error logs the plain
key/values and returns; a non-nil error with no key/values logs the
`err` pair and returns; otherwise the `err` pair is prepended, the
entry logged, and `os.Exit(1)` runs. -/
def fatalSRun (err : Option String) (msg : String) (kvs : List GoAny) :
    FatalOutcome :=
  match err with
  | none => ⟨msg, kvs, false⟩
  | some e =>
    if kvs.length = 0 then ⟨msg, [.str ErrKey, .str e], false⟩
    else ⟨msg, .str ErrKey :: .str e :: kvs, true⟩

/-- `Logger.Fatal` (src/logger.go): logs the sprinted message and then
unconditionally runs `os.Exit(1)`. -/
def fatalRun (msg : String) : FatalOutcome := ⟨msg, [], true⟩

/-- `Logger.Fatalf` (src/logger.go): logs the formatted message and
then unconditionally runs `os.Exit(1)`. -/
def fatalfRun (msg : String) : FatalOutcome := ⟨msg, [], true⟩

/-- C1: the claim says `Resolve` never returns a Valuer-kind Value, for
every constructible Value including `ValuerValue(nil)`.  The code
disagrees: when the stored function is nil, the loop returns the
receiver itself, still of kind `Valuer` — contradicting the guarantee
stated in `Resolve`'s own doc comment. -/
theorem resolve_nil_valuer_keeps_kind (ctx : Ctx) :
    (Value.resolve ctx (ValuerValue none)).kind = Kind.valuer := rfl

/-- C2: the claim says every Fatal-family call terminates the process.
`Fatal` and `Fatalf` do, but `FatalS` returns without reaching
`os.Exit(1)` both when the error is nil and when the error is non-nil
with an empty key/value list; only the branch with a non-nil error and
non-empty key/values exits. -/
theorem fatalS_exit_behaviour :
    (fatalSRun none "boom" []).exits = false ∧
    (fatalSRun (some "cause") "boom" []).exits = false ∧
    (fatalSRun (some "cause") "boom" [.str "k", .str "v"]).exits = true ∧
    (fatalRun "boom").exits = true ∧ (fatalfRun "boom").exits = true :=
  ⟨rfl, rfl, rfl, rfl, rfl⟩

/-- C5: the claim says `Value.String()` never fails for any
constructible kind, including `KindSource`.  But the switch in
`Value.append` has no `KindSource` case, so a Source value falls into
the default branch and panics with a bad-kind message — contradicting
the method's own "String never panics" doc comment. -/
theorem string_panics_on_source :
    Value.stringRender (SourceValue (some ⟨"main.main", "main.go", 10⟩)) =
      none := by
  simp [Value.stringRender, SourceValue, Value.kind, Value.appendFmt]

/-- C6: attribute coercion consumes a non-empty list left to right,
never fails, and produces exactly the claimed Field in each of the four
cases: a Field element verbatim advancing by one, a string key with a
following value advancing by two, a dangling trailing string becoming
the bad-key sentinel with consumption stopped, and any other element in
key position becoming an `Any` bad-key Field advancing by one. -/
theorem kvsToField_cases :
    (∀ (f : Field) (rest : List GoAny), kvsToField (.fieldV f :: rest) = (f, rest)) ∧
    (∀ (s : String) (v : GoAny) (rest : List GoAny),
      kvsToField (.str s :: v :: rest) = (Any' s v, rest)) ∧
    (∀ s : String, kvsToField [.str s] = (String' badKey s, [])) ∧
    (∀ (x : GoAny) (rest : List GoAny),
      (∀ s, x ≠ .str s) → (∀ f, x ≠ .fieldV f) →
        kvsToField (x :: rest) = (Any' badKey x, rest)) ∧
    (∀ kvs : List GoAny, kvs ≠ [] → (kvsToField kvs).2.length < kvs.length) := by
  refine ⟨fun f rest => rfl, fun s v rest => rfl, fun s => rfl, ?_,
    fun kvs h => kvsToField_rest_lt kvs h⟩
  intro x rest hs hf
  cases x <;> first
    | rfl
    | (exact absurd rfl (hs _))
    | (exact absurd rfl (hf _))

/-- Witness for C6 at concrete inputs. -/
theorem kvsToField_cases_witness :
    kvsToField [GoAny.boolV true, GoAny.str "x"] =
      (Any' badKey (GoAny.boolV true), [GoAny.str "x"]) ∧
    (kvsToField [GoAny.str "oops"]).2.length < 1 :=
  ⟨kvsToField_cases.2.2.2.1 (GoAny.boolV true) [GoAny.str "x"]
      (fun s => by simp) (fun f => by simp),
    kvsToField_cases.2.2.2.2 [GoAny.str "oops"] (by simp)⟩

/-- C7: `GroupValue` keeps exactly the non-empty-group elements of its
argument, in order, so no empty group ever appears as a child of a
group built by this constructor. -/
theorem groupValue_children (as : List Field) :
    (GroupValue as).groupPayload =
      as.filter (fun a => !a.value.isEmptyGroup) ∧
    ∀ f, f ∈ (GroupValue as).groupPayload → f.value.isEmptyGroup = false := by
  have hpay : (GroupValue as).groupPayload =
      if countEmptyGroups as > 0 then
        as.filter (fun a => !a.value.isEmptyGroup) else as := by
    simp only [GroupValue, Value.groupPayload]
  by_cases h : countEmptyGroups as > 0
  · rw [hpay, if_pos h]
    refine ⟨rfl, fun f hf => ?_⟩
    have := List.of_mem_filter hf
    simpa using this
  · have hz : (as.filter fun a => a.value.isEmptyGroup) = [] := by
      have : countEmptyGroups as = 0 := by omega
      simpa [countEmptyGroups] using congrArg (fun n => n) this
    have hall : ∀ a ∈ as, a.value.isEmptyGroup = false := by
      intro a ha
      by_contra hcon
      have : a ∈ (as.filter fun a => a.value.isEmptyGroup) :=
        List.mem_filter.mpr ⟨ha, by simpa using hcon⟩
      simp [hz] at this
    have hfil : (as.filter fun a => !a.value.isEmptyGroup) = as := by
      apply List.filter_eq_self.mpr
      intro a ha
      simp [hall a ha]
    rw [hpay, if_neg h]
    exact ⟨hfil.symm, fun f hf => hall f hf⟩

/-- Witness for C7 at a concrete group. -/
theorem groupValue_children_witness :
    (GroupValue [Field.mk "g" (GroupValue []), String' "k" "v"]).groupPayload =
      [ String' "k" "v"] ∧
    ( String' "k" "v").value.isEmptyGroup = false := by
  have h := groupValue_children [Field.mk "g" (GroupValue []), String' "k" "v"]
  refine ⟨?_, ?_⟩
  · rw [h.1]
    rfl
  · exact h.2 ( String' "k" "v") (by rw [h.1]; exact List.mem_singleton.mpr rfl)

/-- The matching explicit constructor for each supported primitive
input, as the claim names them: `Int64Value` for the signed widths
(after the `int64(x)` conversion), `Uint64Value` for the unsigned
widths, `Float64Value` for both float widths (after `float64(x)`),
`BoolValue`, `StringValue`, `DurationValue` and `TimeValue`.  This
definition follows the claim's words; the theorems compare it against
the source's `AnyValue`.  Non-primitive payloads are unused by the
theorems. -/
def explicitKindValue : GoAny → Value
  | .str s => StringValue s
  | .intV n => Int64Value n
  | .i8 n => Int64Value n
  | .i16 n => Int64Value n
  | .i32 n => Int64Value n
  | .i64 n => Int64Value n
  | .uintV n => Uint64Value n
  | .u8 n => Uint64Value n
  | .u16 n => Uint64Value n
  | .u32 n => Uint64Value n
  | .u64 n => Uint64Value n
  | .uptr n => Uint64Value n
  | .f64 b => Float64Value b
  | .f32 b => Float64Value (f32BitsToF64Bits b)
  | .boolV b => BoolValue b
  | .dur n => DurationValue n
  | .timeV t => TimeValue t
  | x => AnyValue x

/-- The supported primitive inputs the claim ranges over. -/
def isSupportedPrim : GoAny → Bool
  | .str _ => true
  | .intV _ => true
  | .i8 _ => true
  | .i16 _ => true
  | .i32 _ => true
  | .i64 _ => true
  | .uintV _ => true
  | .u8 _ => true
  | .u16 _ => true
  | .u32 _ => true
  | .u64 _ => true
  | .uptr _ => true
  | .f64 _ => true
  | .f32 _ => true
  | .boolV _ => true
  | .dur _ => true
  | .timeV _ => true
  | _ => false

/-- A floating-point input whose value is a NaN. -/
def isNaNPrim : GoAny → Bool
  | .f64 b => isNaNBits64 b
  | .f32 b => isNaNBits64 (f32BitsToF64Bits b)
  | _ => false

/-- The bit pattern of a quiet float64 NaN. -/
def nanBits64 : Nat := 0x7FF8000000000000

/-- C8 counterexample: for a NaN input the claimed equation
`AnyValue(x).Equal(ExplicitKindValue(x))` is false, because `Equal`
compares Float64 values with IEEE `==` and a NaN never equals itself. -/
theorem anyValue_equal_explicit_nan_cex :
    Value.equal (AnyValue (GoAny.f64 nanBits64))
      (explicitKindValue (GoAny.f64 nanBits64)) = some false := by
  simp only [AnyValue, explicitKindValue, Float64Value, Value.equal]
  norm_num [floatEqBits, isNaNBits64, nanBits64]

/-- C8 amended: for every supported primitive input that is not a
floating-point NaN, `AnyValue(x).Equal(ExplicitKindValue(x))` holds
(and in particular every integer width collapses onto Int64/Uint64). -/
theorem anyValue_equal_explicit (x : GoAny)
    (hp : isSupportedPrim x = true) (hn : isNaNPrim x = false) :
    Value.equal (AnyValue x) (explicitKindValue x) = some true := by
  cases x <;> simp only [isSupportedPrim, Bool.false_eq_true] at hp
  case str s =>
    simp [AnyValue, explicitKindValue, StringValue, Value.equal, Value.strPayload]
  case intV n =>
    simp [AnyValue, explicitKindValue, IntValue, Int64Value, Value.equal]
  case i8 n =>
    simp [AnyValue, explicitKindValue, Int64Value, Value.equal]
  case i16 n =>
    simp [AnyValue, explicitKindValue, Int64Value, Value.equal]
  case i32 n =>
    simp [AnyValue, explicitKindValue, Int64Value, Value.equal]
  case i64 n =>
    simp [AnyValue, explicitKindValue, Int64Value, Value.equal]
  case uintV n =>
    simp [AnyValue, explicitKindValue, UintValue, Uint64Value, Value.equal]
  case u8 n =>
    simp [AnyValue, explicitKindValue, Uint64Value, Value.equal]
  case u16 n =>
    simp [AnyValue, explicitKindValue, Uint64Value, Value.equal]
  case u32 n =>
    simp [AnyValue, explicitKindValue, Uint64Value, Value.equal]
  case u64 n =>
    simp [AnyValue, explicitKindValue, Uint64Value, Value.equal]
  case uptr n =>
    simp [AnyValue, explicitKindValue, Uint64Value, Value.equal]
  case boolV b =>
    simp [AnyValue, explicitKindValue, BoolValue, Value.equal]
  case dur n =>
    simp [AnyValue, explicitKindValue, DurationValue, Value.equal]
  case f64 b =>
    simp only [isNaNPrim] at hn
    simp only [AnyValue, explicitKindValue, Float64Value, Value.equal]
    simp [floatEqBits, hn]
  case f32 b =>
    simp only [isNaNPrim] at hn
    simp only [AnyValue, explicitKindValue, Float64Value, Value.equal]
    simp [floatEqBits, hn]
  case timeV t =>
    simp only [AnyValue, explicitKindValue]
    unfold TimeValue
    split
    · simp [Value.equal, Value.timePayload, GoTime.equalTime]
    · split
      · simp [Value.equal, Value.timePayload, GoTime.equalTime]
      · simp [Value.equal, Value.timePayload, GoTime.equalTime]

/-- Witness for C8 at concrete supported inputs. -/
theorem anyValue_equal_explicit_witness :
    Value.equal (AnyValue (GoAny.u8 7)) (explicitKindValue (GoAny.u8 7)) =
      some true ∧
    Value.equal (AnyValue (GoAny.str "a")) (explicitKindValue (GoAny.str "a")) =
      some true :=
  ⟨anyValue_equal_explicit (GoAny.u8 7) rfl rfl,
    anyValue_equal_explicit (GoAny.str "a") rfl rfl⟩


/-- The named levels (src/level.go): Debug −4, Info 0, Warn 4, Error 8,
Fatal 12.  A `Level` is a Go int, embedded as `Int`: every operation
below adds or subtracts at most 12, so int64 wraparound is unreachable
from any int64-range input and the unbounded model is faithful. -/
def LevelDebug : Int := -4
def LevelInfo : Int := 0
def LevelWarn : Int := 4
def LevelError : Int := 8
def LevelFatal : Int := 12

/-- `fmt.Sprintf("%+d", v)`: always-signed decimal. -/
def sprintfSignedDec (v : Int) : List Char :=
  if v < 0 then '-' :: natToDecimal (-v).toNat else '+' :: natToDecimal v.toNat

/-- The local `str` closure of `Level.String`: the bare base name when
the offset is zero, otherwise base followed by the signed offset. -/
def levelBaseStr (base : List Char) (val : Int) : List Char :=
  if val = 0 then base else base ++ sprintfSignedDec val

/-- `Level.String()`: nearest lower base name plus signed offset. -/
def levelString (l : Int) : List Char :=
  if l < LevelInfo then levelBaseStr "DEBUG".toList (l - LevelDebug)
  else if l < LevelWarn then levelBaseStr "INFO".toList (l - LevelInfo)
  else if l < LevelError then levelBaseStr "WARN".toList (l - LevelWarn)
  else if l < LevelFatal then levelBaseStr "ERROR".toList (l - LevelError)
  else levelBaseStr "FATAL".toList (l - LevelFatal)

/-- Membership in the cutset of `strings.IndexAny(s, "+-")`. -/
def isSignChar (c : Char) : Bool := c == '+' || c == '-'

/-- The digit-accumulation loop of `strconv.Atoi`, most significant
first. -/
def parseDigitsBE (cs : List Char) : Nat :=
  cs.foldl (fun a c => 10 * a + charDigit c) 0

/-- `strconv.Atoi`, on the shapes `ParseLevel` feeds it (an optional
sign followed by digits); `Atoi` yields 0 on a syntax error such as a
bare sign, and `ParseLevel` discards the error.  Inputs with non-digit
tails never arise from `Level.String`. -/
def atoi (cs : List Char) : Int :=
  match cs with
  | [] => 0
  | '+' :: ds => if ds = [] then 0 else (parseDigitsBE ds : Int)
  | '-' :: ds => if ds = [] then 0 else -(parseDigitsBE ds : Int)
  | ds => (parseDigitsBE ds : Int)

/-- `strings.ToUpper`, per character. -/
def toUpperList (cs : List Char) : List Char := cs.map Char.toUpper

/-- The base-name switch of `ParseLevel`, defaulting to `LevelInfo`. -/
def parseBaseName (name : List Char) : Int :=
  if name = "DEBUG".toList then LevelDebug
  else if name = "INFO".toList then LevelInfo
  else if name = "WARN".toList then LevelWarn
  else if name = "ERROR".toList then LevelError
  else if name = "FATAL".toList then LevelFatal
  else LevelInfo

/-- `ParseLevel`: split at the first `+`/`-`, resolve the upper-cased
base name, add the parsed offset. -/
def parseLevel (s : List Char) : Int :=
  let io := s.findIdx? isSignChar
  let name := match io with | some j => s.take j | none => s
  let offset : Int := match io with | some j => atoi (s.drop j) | none => 0
  parseBaseName (toUpperList name) + offset

/-- Value of a little-endian digit list. -/
def parseLEN : List Nat → Nat
  | [] => 0
  | d :: ds => d + 10 * parseLEN ds

theorem parseLEN_natDigitsLE : ∀ fuel n, n ≤ fuel → parseLEN (natDigitsLE fuel n) = n := by
  intro fuel
  induction fuel with
  | zero =>
    intro n h
    interval_cases n
    simp [natDigitsLE, parseLEN]
  | succ fuel ih =>
    intro n h
    by_cases hn : n = 0
    · simp [natDigitsLE, hn, parseLEN]
    · rw [natDigitsLE, if_neg hn]
      have hdle : n / 10 ≤ fuel := by
        have : n / 10 < n := Nat.div_lt_self (Nat.pos_of_ne_zero hn) (by norm_num)
        omega
      simp [parseLEN, ih _ hdle]
      omega

theorem natDigitsLE_lt : ∀ fuel n d, d ∈ natDigitsLE fuel n → d < 10 := by
  intro fuel
  induction fuel with
  | zero => simp [natDigitsLE]
  | succ fuel ih =>
    intro n d hd
    by_cases hn : n = 0
    · simp [natDigitsLE, hn] at hd
    · rw [natDigitsLE, if_neg hn] at hd
      rcases List.mem_cons.mp hd with h | h
      · subst h
        exact Nat.mod_lt _ (by norm_num)
      · exact ih _ _ h

theorem foldlBE_reverse (ds : List Nat) (a : Nat) :
    (ds.reverse).foldl (fun x d => 10 * x + d) a = a * 10 ^ ds.length + parseLEN ds := by
  induction ds generalizing a with
  | nil => simp [parseLEN]
  | cons d ds ih =>
    simp only [List.reverse_cons, List.foldl_append, List.foldl_cons, List.foldl_nil, ih,
      parseLEN, List.length_cons]
    ring

theorem charDigit_digitChar (d : Nat) (h : d < 10) : charDigit (digitChar d) = d := by
  interval_cases d <;> decide

theorem parseDigitsBE_natToDecimal (n : Nat) : parseDigitsBE (natToDecimal n) = n := by
  by_cases hn : n = 0
  · subst hn
    decide
  · rw [natToDecimal, if_neg hn]
    unfold parseDigitsBE
    rw [List.foldl_map]
    have hcong : ∀ (a : Nat), ∀ d ∈ (natDigitsLE n n).reverse,
        10 * a + charDigit (digitChar d) = 10 * a + d := by
      intro a d hd
      rw [charDigit_digitChar d (natDigitsLE_lt n n d (List.mem_reverse.mp hd))]
    rw [List.foldl_ext _ _ 0 hcong, foldlBE_reverse]
    simp [parseLEN_natDigitsLE n n le_rfl]

theorem natToDecimal_ne_nil (n : Nat) : natToDecimal n ≠ [] := by
  by_cases hn : n = 0
  · simp [natToDecimal, hn]
  · rw [natToDecimal, if_neg hn]
    have : natDigitsLE n n ≠ [] := by
      cases n with
      | zero => exact absurd rfl hn
      | succ m => simp [natDigitsLE]
    simp [this]

theorem natToDecimal_no_sign (n : Nat) : ∀ c ∈ natToDecimal n, isSignChar c = false := by
  by_cases hn : n = 0
  · simp [natToDecimal, hn]
    decide
  · rw [natToDecimal, if_neg hn]
    intro c hc
    rcases List.mem_map.mp hc with ⟨d, hd, hdc⟩
    have hdlt : d < 10 := natDigitsLE_lt n n d (List.mem_reverse.mp hd)
    subst hdc
    interval_cases d <;> decide

theorem atoi_sprintf (v : Int) : atoi (sprintfSignedDec v) = v := by
  by_cases hneg : v < 0
  · rw [sprintfSignedDec, if_pos hneg]
    simp [atoi, natToDecimal_ne_nil, parseDigitsBE_natToDecimal]
    omega
  · rw [sprintfSignedDec, if_neg hneg]
    simp [atoi, natToDecimal_ne_nil, parseDigitsBE_natToDecimal]
    omega

theorem findIdx?_no_sign {cs : List Char} (h : ∀ c ∈ cs, isSignChar c = false) :
    cs.findIdx? isSignChar = none := by
  rw [List.findIdx?_eq_none_iff]
  intro x hx
  simp [h x hx]

theorem findIdx?_append_sign (base : List Char) (c : Char) (rest : List Char)
    (hb : ∀ x ∈ base, isSignChar x = false) (hc : isSignChar c = true) :
    (base ++ c :: rest).findIdx? isSignChar = some base.length := by
  induction base with
  | nil => simp [List.findIdx?_cons, hc]
  | cons a base ih =>
    have ha : isSignChar a = false := hb a (by simp)
    simp [List.findIdx?_cons, ha, ih (fun x hx => hb x (by simp [hx]))]

theorem sprintf_head_sign (v : Int) :
    ∃ c ds, sprintfSignedDec v = c :: ds ∧ isSignChar c = true := by
  by_cases hneg : v < 0
  · exact ⟨'-', _, by rw [sprintfSignedDec, if_pos hneg], by decide⟩
  · exact ⟨'+', _, by rw [sprintfSignedDec, if_neg hneg], by decide⟩

theorem parseLevel_levelBaseStr (base : List Char) (val : Int)
    (hb : ∀ x ∈ base, isSignChar x = false) :
    parseLevel (levelBaseStr base val) = parseBaseName (toUpperList base) + val := by
  by_cases h0 : val = 0
  · subst h0
    rw [levelBaseStr, if_pos rfl]
    simp [parseLevel, findIdx?_no_sign hb]
  · rw [levelBaseStr, if_neg h0]
    rcases sprintf_head_sign val with ⟨c, ds, hs, hsign⟩
    rw [hs]
    simp only [parseLevel, findIdx?_append_sign base c ds hb hsign]
    rw [List.take_left, List.drop_left, ← hs, atoi_sprintf val]

/-- C10: `ParseLevel` inverts `Level.String` exactly, for every level,
including values between and beyond the named levels. -/
theorem parseLevel_levelString (l : Int) : parseLevel (levelString l) = l := by
  have hD : ∀ x ∈ "DEBUG".toList, isSignChar x = false := by decide
  have hI : ∀ x ∈ "INFO".toList, isSignChar x = false := by decide
  have hW : ∀ x ∈ "WARN".toList, isSignChar x = false := by decide
  have hE : ∀ x ∈ "ERROR".toList, isSignChar x = false := by decide
  have hF : ∀ x ∈ "FATAL".toList, isSignChar x = false := by decide
  rw [levelString]
  split_ifs with h1 h2 h3 h4
  · rw [parseLevel_levelBaseStr _ _ hD]
    have hb : parseBaseName (toUpperList "DEBUG".toList) = LevelDebug := by decide
    rw [hb]
    ring
  · rw [parseLevel_levelBaseStr _ _ hI]
    have hb : parseBaseName (toUpperList "INFO".toList) = LevelInfo := by decide
    rw [hb]
    ring
  · rw [parseLevel_levelBaseStr _ _ hW]
    have hb : parseBaseName (toUpperList "WARN".toList) = LevelWarn := by decide
    rw [hb]
    ring
  · rw [parseLevel_levelBaseStr _ _ hE]
    have hb : parseBaseName (toUpperList "ERROR".toList) = LevelError := by decide
    rw [hb]
    ring
  · rw [parseLevel_levelBaseStr _ _ hF]
    have hb : parseBaseName (toUpperList "FATAL".toList) = LevelFatal := by decide
    rw [hb]
    ring


/-- `Level.String()` as a Go string, for the handler. -/
def levelStringS (l : Int) : String := (levelString l).asString

/-- The `Replacer` callback type: `func(ctx, groups, Field) Field`. -/
def Replacer := Ctx → List String → Field → Field

/-- `HandlerOptions`: logger name and optional key replacer. -/
structure HandlerOptions where
  Name : String
  Replacer : Option Replacer

/-- `preformattedAttr`: a pre-rendered byte run and an optional
deferred valuer (a stored nil Go func and an absent valuer behave
identically, so both are `none`). -/
structure PreAttr where
  bytes : String
  valuer : Option (Ctx → Value)

/-- `commonHandler` (the group-aware variant): encoding flag, options
and the accumulated pre-formatted segments.  The mutex guards only the
final write and is not part of the pure model. -/
structure CommonHandler where
  json : Bool
  opts : HandlerOptions
  preformattedAttrs : List PreAttr

/-- `attrSep`. -/
def CommonHandler.attrSep (h : CommonHandler) : String :=
  if h.json then "," else " "

/-- `handleState`: the per-call rendering state.  Buffers are plain
strings (the pooled `buffer.Buffer` is an append-only byte slice);
`freeBuf` and pooling are memory management without observable
effect. -/
structure HandleState where
  h : CommonHandler
  buf : String
  sep : String
  prefixBuf : List Char
  groups : Option (List String)

/-- `newHandleState`: empty prefix; the group stack is allocated only
when a replacer is configured. -/
def newHandleState (h : CommonHandler) (buf sep : String) : HandleState :=
  ⟨h, buf, sep, [], if h.opts.Replacer.isSome then some [] else none⟩

/-- Modelled from the spec: `safeSet` lives in the JSON-encoder source
file, which is not under src/ (only `needsQuoting` references it).  Per
the spec's quoting rules it marks the ASCII bytes that need no
escaping: printable ASCII except the double quote and the backslash. -/
def safeSetM (c : Char) : Bool :=
  32 ≤ c.toNat && c.toNat ≤ 126 && c ≠ '"' && c ≠ '\\'

/-- One character of `needsQuoting`: ASCII per the source's test;
non-ASCII printability (`unicode.IsPrint`) is approximated as printable
— every claim only quotes ASCII. -/
def charNeedsQuoting (c : Char) : Bool :=
  if c.toNat < 128 then decide (c ≠ '\\') && (c == ' ' || c == '=' || !safeSetM c)
  else c.isWhitespace

/-- `needsQuoting`: the empty string and any string with a character
needing quoting. -/
def needsQuoting (s : String) : Bool :=
  if s.length = 0 then true else s.toList.any charNeedsQuoting

/-- A hexadecimal digit. -/
def hexDigit (d : Nat) : Char :=
  if d < 10 then digitChar d else Char.ofNat (97 + (d - 10))

/-- Four hex digits for a `\u` escape. -/
def hex4 (n : Nat) : String :=
  ⟨[hexDigit (n / 4096 % 16), hexDigit (n / 256 % 16),
    hexDigit (n / 16 % 16), hexDigit (n % 16)]⟩

/-- Modelled from the spec: `appendEscapedJSONString` is in the
JSON-encoder file, not under src/.  Standard JSON escaping per the
spec's "strings are escaped per JSON string rules": quote and backslash
get a backslash, control characters a `\u` escape, everything else is
itself. -/
def jsonEscapeChar (c : Char) : String :=
  if c = '"' then "\\\""
  else if c = '\\' then "\\\\"
  else if c.toNat < 32 then "\\u" ++ hex4 c.toNat
  else String.singleton c

/-- JSON escaping of a whole string. -/
def jsonEscape (s : String) : String :=
  String.join (s.toList.map jsonEscapeChar)

/-- A JSON-quoted string. -/
def jsonQuoted (s : String) : String := "\"" ++ jsonEscape s ++ "\""

/-- `strconv.Quote` as the text encoder uses it; the escapes are
modelled with the JSON escaper (claims only quote strings both leave
untouched). -/
def goQuote (s : String) : String := "\"" ++ jsonEscape s ++ "\""

/-- The text-mode string rendering: quoted only when needed. -/
def textQuoted (s : String) : String :=
  if needsQuoting s then goQuote s else s

/-- `handleState.appendString`. -/
def HandleState.appendStringQ (s : HandleState) (str : String) : HandleState :=
  { s with buf := s.buf ++ (if s.h.json then jsonQuoted str else textQuoted str) }

/-- `handleState.appendKey`: pending separator, the (possibly
prefix-extended) key, and the key/value delimiter; the separator
becomes the handler's. -/
def HandleState.appendKey (s : HandleState) (key : String) : HandleState :=
  let s1 := { s with buf := s.buf ++ s.sep }
  if s.h.json then
    let s2 := s1.appendStringQ key
    { s2 with buf := s2.buf ++ ":", sep := s.h.attrSep }
  else
    let s2 := if s.prefixBuf.length > 0 then s1.appendStringQ (s.prefixBuf.asString ++ key)
      else s1.appendStringQ key
    { s2 with buf := s2.buf ++ "=", sep := s.h.attrSep }

/-- `handleState.openGroup`: JSON opens a brace and clears the pending
separator; text pushes a dotted prefix component; both record the group
name for the replacer. -/
def HandleState.openGroup (s : HandleState) (name : String) : HandleState :=
  let s1 :=
    if s.h.json then
      let s2 := s.appendKey name
      { s2 with buf := s2.buf ++ "\x7b", sep := "" }
    else { s with prefixBuf := s.prefixBuf ++ name.toList ++ ['.'] }
  match s1.groups with
  | some gs => { s1 with groups := some (gs ++ [name]) }
  | none => s1

/-- `handleState.closeGroup`: JSON closes the brace; text drops the
prefix component; the parent's separator becomes pending. -/
def HandleState.closeGroup (s : HandleState) (name : String) : HandleState :=
  let s1 :=
    if s.h.json then { s with buf := s.buf ++ "\x7d" }
    else { s with prefixBuf := s.prefixBuf.take (s.prefixBuf.length - (name.length + 1)) }
  let s2 := { s1 with sep := s1.h.attrSep }
  match s2.groups with
  | some gs => { s2 with groups := some gs.dropLast }
  | none => s2

mutual

/-- Modelled from the spec: the JSON value encoder (`appendJSONValue`
and `appendJSONTime`) is not under src/, only its callers.  Per the
spec: strings escape per JSON rules, numbers and bools use native
forms, time renders as a quoted fixed-millisecond RFC 3339 string,
groups render as nested objects with quoted keys and comma-separated
members, and other payloads render as quoted text.  Durations (the
spec is silent) are modelled as nanosecond integers, the convention of
the upstream handler this code is derived from. -/
def jsonValueBytes : Value → String
  | .mk n a k =>
    match k with
    | .string => jsonQuoted (Value.strPayload (.mk n a k))
    | .int64 => intDecS (toInt64 n)
    | .uint64 => natDecS n
    | .float64 => formatFloatBits n
    | .bool => if n == 1 then "true" else "false"
    | .duration => intDecS (toInt64 n)
    | .time => "\"" ++ formatRFC3339Millis (Value.timePayload (.mk n a k)) ++ "\""
    | .group =>
      match a with
      | .groupptr fs => "\x7b" ++ jsonFieldsInner fs ++ "\x7d"
      | _ => "null"
    | .source =>
      match a with
      | .sourcePtr (some src) => jsonQuoted (Source.stringRep src)
      | _ => jsonQuoted "<nil>"
    | .any => jsonQuoted (fmtAny a)
    | .valuer => jsonQuoted (fmtAny a)

/-- The members of a JSON group object. -/
def jsonFieldsInner : List Field → String
  | [] => ""
  | [.mk key v] => jsonQuoted key ++ ":" ++ jsonValueBytes v
  | .mk key v :: rest =>
    jsonQuoted key ++ ":" ++ jsonValueBytes v ++ "," ++ jsonFieldsInner rest

end

/-- `appendTextValue` (the text handler file of the group-aware
variant): Source renders file:line (a nil `*Source` takes the non-nil
interface branch, panics on dereference, and the recover in
`appendValue` prints `<nil>`); strings and `Any` payloads go through
the quoting `appendString`; times use the fixed-millisecond form; the
remaining kinds append their raw `Value.append` text (total for those
kinds).  `encoding.TextMarshaler` and `[]byte` payloads are outside
the modelled universe. -/
def textValueBytes (v : Value) : String :=
  match v with
  | .mk _ a k =>
    match k with
    | .source =>
      match a with
      | .sourcePtr (some src) => src.File ++ ":" ++ intDecS src.Line
      | _ => "<nil>"
    | .string => textQuoted (Value.strPayload v)
    | .time => formatRFC3339Millis (Value.timePayload v)
    | .any =>
      match a with
      | .err m => textQuoted m
      | _ => textQuoted (fmtAny a)
    | _ =>
      match Value.appendFmt v with
      | some t => t
      | none => "!PANIC"

/-- `handleState.appendValue`: both encoders only append to the output
buffer; their panic-recovery wrapper has no effect on the total
embedded renderers. -/
def HandleState.appendValue (s : HandleState) (v : Value) : HandleState :=
  { s with buf := s.buf ++ (if s.h.json then jsonValueBytes v else textValueBytes v) }

/-- Fuel for replacer-introduced group nesting.  In the source, a
`Replacer` that rewrites a leaf into a group makes `appendField`
recurse into the freshly returned group, and a replacer that keeps
doing so recurses without bound (until the Go stack overflows); a total
embedding caps that chain.  Ordinary group nesting is structural and
consumes no fuel, so with no replacer — every theorem below — the model
is exact for all inputs. -/
def replacerFuel : Nat := 1000000

mutual

/-- `handleState.appendField` (part one): apply the replacer to
non-group fields, then dispatch. -/
def appendField (fuel : Nat) (s : HandleState) (ctx : Ctx) (field : Field)
    (isPreformat : Bool) : HandleState × Bool :=
  match s.h.opts.Replacer with
  | some rep =>
    if field.value.kind ≠ Kind.group then
      if fuel = 0 then (s, false)
      else appendFieldPost (fuel - 1) s ctx (rep ctx (s.groups.getD []) field) isPreformat
    else appendFieldPost fuel s ctx field isPreformat
  | none => appendFieldPost fuel s ctx field isPreformat
termination_by (fuel, sizeOf field, 3)

/-- `handleState.appendField` (part two, after replacement): elide
empty fields; a Valuer field appends its key and either checkpoints the
buffer as a deferred segment (accumulation) or resolves and renders in
place (per-call); a group with no children is elided, one with a
non-empty key opens and closes the group around its children; leaves
append key and value.  A group whose payload is not a slice would panic
in `group()` — unreachable through the constructors. -/
def appendFieldPost (fuel : Nat) (s : HandleState) (ctx : Ctx) (field : Field)
    (isPreformat : Bool) : HandleState × Bool :=
  match field with
  | .mk key (.mk n a k) =>
    if (Field.mk key (.mk n a k)).isEmpty then (s, false)
    else if k = Kind.valuer then
      let s1 := s.appendKey key
      if isPreformat then
        ({ s1 with
            h := { s1.h with preformattedAttrs :=
              s1.h.preformattedAttrs ++
                [⟨s1.buf, Value.valuerPayload (.mk n a k)⟩] },
            buf := "" }, true)
      else (s1.appendValue (Value.resolve ctx (.mk n a k)), true)
    else if k = Kind.group then
      match a with
      | .groupptr fs =>
        if fs.length = 0 then (s, false)
        else
          let s1 := if key ≠ "" then s.openGroup key else s
          let s2 := (appendFields fuel s1 ctx fs isPreformat true).1
          let s3 := if key ≠ "" then s2.closeGroup key else s2
          (s3, true)
      | _ => (s, false)
    else ((s.appendKey key).appendValue (.mk n a k), true)
termination_by (fuel, sizeOf field, 2)

/-- `handleState.appendFields`: run the loop, then (when accumulating
at the top of a `With` call) push the leftover buffer as a literal
segment. -/
def appendFields (fuel : Nat) (s : HandleState) (ctx : Ctx) (fields : List Field)
    (isPreformat isGroup : Bool) : HandleState × Bool :=
  let r := appendFieldsLoop fuel s ctx fields isPreformat
  if isPreformat && !isGroup && r.1.buf.length > 0 then
    ({ r.1 with h := { r.1.h with preformattedAttrs :=
        r.1.h.preformattedAttrs ++ [⟨r.1.buf, none⟩] } }, r.2)
  else r
termination_by (fuel, sizeOf fields, 1)

/-- The field loop of `appendFields`: `nonEmpty` once any field
contributed. -/
def appendFieldsLoop (fuel : Nat) (s : HandleState) (ctx : Ctx)
    (fields : List Field) (isPreformat : Bool) : HandleState × Bool :=
  match fields with
  | [] => (s, false)
  | f :: rest =>
    let r1 := appendField fuel s ctx f isPreformat
    let r2 := appendFieldsLoop fuel r1.1 ctx rest isPreformat
    (r2.1, r1.2 || r2.2)
termination_by (fuel, sizeOf fields, 0)

end

/-- `handleState.appendPreformattedAttrs`: replay accumulated segments
in order — literal bytes verbatim, deferred valuers invoked against the
call's context and resolved before rendering.  The pending separator is
left untouched. -/
def appendPreAttrs (s : HandleState) (ctx : Ctx) : HandleState :=
  s.h.preformattedAttrs.foldl
    (fun st attr =>
      let st1 := if attr.bytes.length > 0 then { st with buf := st.buf ++ attr.bytes } else st
      match attr.valuer with
      | some f => st1.appendValue (Value.resolve ctx (f ctx))
      | none => st1)
    s

/-- `handleState.appendNonBuiltIns`: coerce and render the per-call
arguments immediately (never deferred). -/
def appendNonBuiltIns (fuel : Nat) (s : HandleState) (ctx : Ctx)
    (kvs : List GoAny) : HandleState :=
  match kvs with
  | [] => s
  | x :: rest =>
    let fr := kvsToField (x :: rest)
    appendNonBuiltIns fuel (appendField fuel s ctx fr.1 false).1 ctx fr.2
termination_by kvs.length
decreasing_by
  apply kvsToField_rest_lt
  simp

/-- `commonHandler.withFields`: a list consisting entirely of empty
groups returns the receiver itself; otherwise the clone's segment list
is extended by formatting the fields into a fresh buffer whose pending
separator is already the attribute separator. -/
def CommonHandler.withFields (h : CommonHandler) (ctx : Ctx)
    (fields : List Field) : CommonHandler :=
  if countEmptyGroups fields = fields.length then h
  else (appendFields replacerFuel (newHandleState h "" h.attrSep) ctx
    fields true false).1.h

/-- `newCommonHandler`: a JSON handler with a non-empty name
immediately accumulates the `logger` field. -/
def newCommonHandler (json : Bool) (opts : HandlerOptions) : CommonHandler :=
  let ch : CommonHandler := ⟨json, opts, []⟩
  if json ∧ opts.Name ≠ "" then
    ch.withFields ctx0 [String' NameKey opts.Name]
  else ch

/-- `commonHandler.handle`: the per-call rendering pipeline, returning
the bytes handed to the writer (the write itself, its mutex and the
discard fast path are I/O outside the pure model).  The source invokes
the replacer on the built-in level and message fields but discards the
result, so those calls have no observable effect here. -/
def handleRun (h : CommonHandler) (ctx : Ctx) (level : Int) (msg : String)
    (kvs : List GoAny) : String :=
  let s := newHandleState h "" ""
  let s := if h.json then { s with buf := s.buf ++ "\x7b" } else s
  let s := if !h.json && h.opts.Name ≠ "" then
      { s with buf := s.buf ++ "[" ++ h.opts.Name ++ "] " } else s
  let stateGroups := s.groups
  let s := { s with groups := none }
  let levelStr := levelStringS level
  let s := if h.json then (s.appendKey LevelKey).appendStringQ levelStr
    else { s.appendStringQ levelStr with sep := h.attrSep }
  let s := appendPreAttrs s ctx
  let s := if msg ≠ "" then (s.appendKey MessageKey).appendStringQ msg else s
  let s := { s with groups := stateGroups }
  let s := appendNonBuiltIns replacerFuel s ctx kvs
  let s := if h.json then { s with buf := s.buf ++ "\x7d" } else s
  s.buf ++ "\n"

/-- Replace a state's accumulated segment list. -/
def HandleState.setPre (s : HandleState) (q : List PreAttr) : HandleState :=
  { s with h := { s.h with preformattedAttrs := q } }

/-- Prepend bytes to a state's output buffer. -/
def HandleState.withBufPre (s : HandleState) (b0 : String) : HandleState :=
  { s with buf := b0 ++ s.buf }

theorem HandleState.extEq {a b : HandleState} (hh : a.h = b.h)
    (hbuf : a.buf = b.buf) (hsep : a.sep = b.sep)
    (hp : a.prefixBuf = b.prefixBuf) (hg : a.groups = b.groups) : a = b := by
  cases a
  cases b
  simp_all

/-- The bytes `appendString` contributes. -/
def strBytes (json : Bool) (str : String) : String :=
  if json then jsonQuoted str else textQuoted str

/-- The bytes `appendKey` contributes after the separator. -/
def keyBytes (json : Bool) (pfx : List Char) (k : String) : String :=
  if json then jsonQuoted k ++ ":"
  else (if pfx.length > 0 then textQuoted (pfx.asString ++ k) else textQuoted k) ++ "="

theorem appendStringQ_buf (s : HandleState) (str : String) :
    (s.appendStringQ str).buf = s.buf ++ strBytes s.h.json str := rfl

theorem appendStringQ_h (s : HandleState) (str : String) :
    (s.appendStringQ str).h = s.h := rfl

theorem appendStringQ_sep (s : HandleState) (str : String) :
    (s.appendStringQ str).sep = s.sep := rfl

theorem appendStringQ_prefixBuf (s : HandleState) (str : String) :
    (s.appendStringQ str).prefixBuf = s.prefixBuf := rfl

theorem appendStringQ_groups (s : HandleState) (str : String) :
    (s.appendStringQ str).groups = s.groups := rfl

theorem appendKey_h (s : HandleState) (k : String) :
    (s.appendKey k).h = s.h := by
  obtain ⟨⟨hj, ho, hpre⟩, buf, sep, pfx, gs⟩ := s
  cases hj <;>
    simp [HandleState.appendKey, HandleState.appendStringQ, apply_ite HandleState.h]

theorem appendKey_buf (s : HandleState) (k : String) :
    (s.appendKey k).buf = s.buf ++ s.sep ++ keyBytes s.h.json s.prefixBuf k := by
  obtain ⟨⟨hj, ho, hpre⟩, buf, sep, pfx, gs⟩ := s
  cases hj
  · simp [HandleState.appendKey, HandleState.appendStringQ, keyBytes,
      apply_ite HandleState.buf, String.append_assoc]
    split <;> simp [String.append_assoc]
  · simp [HandleState.appendKey, HandleState.appendStringQ, keyBytes,
      apply_ite HandleState.buf, String.append_assoc]

theorem appendKey_sep (s : HandleState) (k : String) :
    (s.appendKey k).sep = s.h.attrSep := by
  obtain ⟨⟨hj, ho, hpre⟩, buf, sep, pfx, gs⟩ := s
  cases hj <;>
    simp [HandleState.appendKey, HandleState.appendStringQ, apply_ite HandleState.sep]

theorem appendKey_prefixBuf (s : HandleState) (k : String) :
    (s.appendKey k).prefixBuf = s.prefixBuf := by
  obtain ⟨⟨hj, ho, hpre⟩, buf, sep, pfx, gs⟩ := s
  cases hj <;>
    simp [HandleState.appendKey, HandleState.appendStringQ, apply_ite HandleState.prefixBuf]

theorem appendKey_groups (s : HandleState) (k : String) :
    (s.appendKey k).groups = s.groups := by
  obtain ⟨⟨hj, ho, hpre⟩, buf, sep, pfx, gs⟩ := s
  cases hj <;>
    simp [HandleState.appendKey, HandleState.appendStringQ, apply_ite HandleState.groups]

/-- The bytes `appendValue` contributes. -/
def valueBytes (json : Bool) (v : Value) : String :=
  if json then jsonValueBytes v else textValueBytes v

theorem appendValue_buf (s : HandleState) (v : Value) :
    (s.appendValue v).buf = s.buf ++ valueBytes s.h.json v := rfl

theorem appendValue_h (s : HandleState) (v : Value) :
    (s.appendValue v).h = s.h := rfl

theorem appendValue_sep (s : HandleState) (v : Value) :
    (s.appendValue v).sep = s.sep := rfl

theorem appendValue_prefixBuf (s : HandleState) (v : Value) :
    (s.appendValue v).prefixBuf = s.prefixBuf := rfl

theorem appendValue_groups (s : HandleState) (v : Value) :
    (s.appendValue v).groups = s.groups := rfl

theorem openGroup_h (s : HandleState) (n : String) :
    (s.openGroup n).h = s.h := by
  obtain ⟨⟨hj, ho, hpre⟩, buf, sep, pfx, gs⟩ := s
  cases hj <;> cases gs <;>
    simp [HandleState.openGroup, HandleState.appendKey, HandleState.appendStringQ,
      apply_ite HandleState.h, apply_ite HandleState.groups]

theorem openGroup_buf (s : HandleState) (n : String) :
    (s.openGroup n).buf =
      s.buf ++ (if s.h.json then s.sep ++ keyBytes s.h.json s.prefixBuf n ++ "\x7b" else "") := by
  obtain ⟨⟨hj, ho, hpre⟩, buf, sep, pfx, gs⟩ := s
  cases hj <;> cases gs <;>
    simp [HandleState.openGroup, HandleState.appendKey, HandleState.appendStringQ, keyBytes,
      apply_ite HandleState.buf, apply_ite HandleState.groups, String.append_assoc]

theorem openGroup_sep (s : HandleState) (n : String) :
    (s.openGroup n).sep = if s.h.json then "" else s.sep := by
  obtain ⟨⟨hj, ho, hpre⟩, buf, sep, pfx, gs⟩ := s
  cases hj <;> cases gs <;>
    simp [HandleState.openGroup, HandleState.appendKey, HandleState.appendStringQ,
      apply_ite HandleState.sep, apply_ite HandleState.groups]

theorem openGroup_prefixBuf (s : HandleState) (n : String) :
    (s.openGroup n).prefixBuf =
      if s.h.json then s.prefixBuf else s.prefixBuf ++ n.toList ++ ['.'] := by
  obtain ⟨⟨hj, ho, hpre⟩, buf, sep, pfx, gs⟩ := s
  cases hj <;> cases gs <;>
    simp [HandleState.openGroup, HandleState.appendKey, HandleState.appendStringQ,
      apply_ite HandleState.prefixBuf, apply_ite HandleState.groups]

theorem openGroup_groups (s : HandleState) (n : String) :
    (s.openGroup n).groups = s.groups.map (fun gs => gs ++ [n]) := by
  obtain ⟨⟨hj, ho, hpre⟩, buf, sep, pfx, gs⟩ := s
  cases hj <;> cases gs <;>
    simp [HandleState.openGroup, HandleState.appendKey, HandleState.appendStringQ,
      apply_ite HandleState.groups]

theorem closeGroup_h (s : HandleState) (n : String) :
    (s.closeGroup n).h = s.h := by
  obtain ⟨⟨hj, ho, hpre⟩, buf, sep, pfx, gs⟩ := s
  cases hj <;> cases gs <;>
    simp [HandleState.closeGroup, apply_ite HandleState.h, apply_ite HandleState.groups]

theorem closeGroup_buf (s : HandleState) (n : String) :
    (s.closeGroup n).buf = s.buf ++ (if s.h.json then "\x7d" else "") := by
  obtain ⟨⟨hj, ho, hpre⟩, buf, sep, pfx, gs⟩ := s
  cases hj <;> cases gs <;>
    simp [HandleState.closeGroup, apply_ite HandleState.buf, apply_ite HandleState.groups]

theorem closeGroup_sep (s : HandleState) (n : String) :
    (s.closeGroup n).sep = s.h.attrSep := by
  obtain ⟨⟨hj, ho, hpre⟩, buf, sep, pfx, gs⟩ := s
  cases hj <;> cases gs <;>
    simp [HandleState.closeGroup, apply_ite HandleState.sep, apply_ite HandleState.groups]

theorem closeGroup_prefixBuf (s : HandleState) (n : String) :
    (s.closeGroup n).prefixBuf =
      if s.h.json then s.prefixBuf
      else s.prefixBuf.take (s.prefixBuf.length - (n.length + 1)) := by
  obtain ⟨⟨hj, ho, hpre⟩, buf, sep, pfx, gs⟩ := s
  cases hj <;> cases gs <;>
    simp [HandleState.closeGroup, apply_ite HandleState.prefixBuf,
      apply_ite HandleState.groups]

theorem closeGroup_groups (s : HandleState) (n : String) :
    (s.closeGroup n).groups = s.groups.map List.dropLast := by
  obtain ⟨⟨hj, ho, hpre⟩, buf, sep, pfx, gs⟩ := s
  cases hj <;> cases gs <;>
    simp [HandleState.closeGroup, apply_ite HandleState.groups]

@[simp] theorem setPre_h_json (s : HandleState) (q : List PreAttr) :
    (s.setPre q).h.json = s.h.json := rfl

@[simp] theorem setPre_h_opts (s : HandleState) (q : List PreAttr) :
    (s.setPre q).h.opts = s.h.opts := rfl

@[simp] theorem setPre_h_pre (s : HandleState) (q : List PreAttr) :
    (s.setPre q).h.preformattedAttrs = q := rfl

@[simp] theorem setPre_buf (s : HandleState) (q : List PreAttr) :
    (s.setPre q).buf = s.buf := rfl

@[simp] theorem setPre_sep (s : HandleState) (q : List PreAttr) :
    (s.setPre q).sep = s.sep := rfl

@[simp] theorem setPre_prefixBuf (s : HandleState) (q : List PreAttr) :
    (s.setPre q).prefixBuf = s.prefixBuf := rfl

@[simp] theorem setPre_groups (s : HandleState) (q : List PreAttr) :
    (s.setPre q).groups = s.groups := rfl

@[simp] theorem withBufPre_h (s : HandleState) (b0 : String) :
    (s.withBufPre b0).h = s.h := rfl

@[simp] theorem withBufPre_buf (s : HandleState) (b0 : String) :
    (s.withBufPre b0).buf = b0 ++ s.buf := rfl

@[simp] theorem withBufPre_sep (s : HandleState) (b0 : String) :
    (s.withBufPre b0).sep = s.sep := rfl

@[simp] theorem withBufPre_prefixBuf (s : HandleState) (b0 : String) :
    (s.withBufPre b0).prefixBuf = s.prefixBuf := rfl

@[simp] theorem withBufPre_groups (s : HandleState) (b0 : String) :
    (s.withBufPre b0).groups = s.groups := rfl

theorem appendStringQ_setPre (s : HandleState) (q : List PreAttr) (str : String) :
    (s.setPre q).appendStringQ str = (s.appendStringQ str).setPre q := rfl

theorem appendValue_setPre (s : HandleState) (q : List PreAttr) (v : Value) :
    (s.setPre q).appendValue v = (s.appendValue v).setPre q := rfl

theorem appendKey_setPre (s : HandleState) (q : List PreAttr) (k : String) :
    (s.setPre q).appendKey k = (s.appendKey k).setPre q := by
  apply HandleState.extEq <;>
    simp [appendKey_h, appendKey_buf, appendKey_sep, appendKey_prefixBuf,
      appendKey_groups, HandleState.setPre, CommonHandler.attrSep]

theorem openGroup_setPre (s : HandleState) (q : List PreAttr) (n : String) :
    (s.setPre q).openGroup n = (s.openGroup n).setPre q := by
  apply HandleState.extEq <;>
    simp [openGroup_h, openGroup_buf, openGroup_sep, openGroup_prefixBuf,
      openGroup_groups, HandleState.setPre, keyBytes]

theorem closeGroup_setPre (s : HandleState) (q : List PreAttr) (n : String) :
    (s.setPre q).closeGroup n = (s.closeGroup n).setPre q := by
  apply HandleState.extEq <;>
    simp [closeGroup_h, closeGroup_buf, closeGroup_sep, closeGroup_prefixBuf,
      closeGroup_groups, HandleState.setPre, CommonHandler.attrSep]

theorem appendStringQ_bufPre (s : HandleState) (b0 str : String) :
    (s.withBufPre b0).appendStringQ str = (s.appendStringQ str).withBufPre b0 := by
  apply HandleState.extEq <;>
    simp [appendStringQ_h, appendStringQ_buf, appendStringQ_sep, appendStringQ_prefixBuf,
      appendStringQ_groups, HandleState.withBufPre, String.append_assoc]

theorem appendValue_bufPre (s : HandleState) (b0 : String) (v : Value) :
    (s.withBufPre b0).appendValue v = (s.appendValue v).withBufPre b0 := by
  apply HandleState.extEq <;>
    simp [appendValue_h, appendValue_buf, appendValue_sep, appendValue_prefixBuf,
      appendValue_groups, HandleState.withBufPre, String.append_assoc]

theorem appendKey_bufPre (s : HandleState) (b0 k : String) :
    (s.withBufPre b0).appendKey k = (s.appendKey k).withBufPre b0 := by
  apply HandleState.extEq <;>
    simp [appendKey_h, appendKey_buf, appendKey_sep, appendKey_prefixBuf,
      appendKey_groups, HandleState.withBufPre, String.append_assoc,
      CommonHandler.attrSep]

theorem openGroup_bufPre (s : HandleState) (b0 n : String) :
    (s.withBufPre b0).openGroup n = (s.openGroup n).withBufPre b0 := by
  apply HandleState.extEq <;>
    simp [openGroup_h, openGroup_buf, openGroup_sep, openGroup_prefixBuf,
      openGroup_groups, HandleState.withBufPre, String.append_assoc, keyBytes]

theorem closeGroup_bufPre (s : HandleState) (b0 n : String) :
    (s.withBufPre b0).closeGroup n = (s.closeGroup n).withBufPre b0 := by
  apply HandleState.extEq <;>
    simp [closeGroup_h, closeGroup_buf, closeGroup_sep, closeGroup_prefixBuf,
      closeGroup_groups, HandleState.withBufPre, String.append_assoc,
      CommonHandler.attrSep]

mutual

/-- The field machine never changes the handler's encoding flag or
options. -/
theorem appendField_keeps (fuel : Nat) (s : HandleState) (ctx : Ctx)
    (f : Field) (b : Bool) :
    (appendField fuel s ctx f b).1.h.json = s.h.json ∧
    (appendField fuel s ctx f b).1.h.opts = s.h.opts := by
  rw [appendField.eq_def]
  cases hrep : s.h.opts.Replacer with
  | none => simpa using appendFieldPost_keeps fuel s ctx f b
  | some rep =>
    by_cases hk : f.value.kind = Kind.group
    · simpa [hk] using appendFieldPost_keeps fuel s ctx f b
    · by_cases hf : fuel = 0
      · simp [hk, hf]
      · simpa [hk, hf] using
          appendFieldPost_keeps (fuel - 1) s ctx (rep ctx (s.groups.getD []) f) b
termination_by (fuel, sizeOf f, 3)

theorem appendFieldPost_keeps (fuel : Nat) (s : HandleState) (ctx : Ctx)
    (f : Field) (b : Bool) :
    (appendFieldPost fuel s ctx f b).1.h.json = s.h.json ∧
    (appendFieldPost fuel s ctx f b).1.h.opts = s.h.opts := by
  obtain ⟨key, n, a, k⟩ := f
  rw [appendFieldPost.eq_def]
  simp only []
  by_cases he : (Field.mk key (.mk n a k)).isEmpty
  · simp [he]
  · rw [if_neg (by simpa using he)]
    by_cases hv : k = Kind.valuer
    · subst hv
      rw [if_pos rfl]
      by_cases hb : b
      · simp [hb, appendKey_h]
      · simp [hb, appendValue_h, appendKey_h]
    · rw [if_neg hv]
      by_cases hg : k = Kind.group
      · subst hg
        rw [if_pos rfl]
        cases a
        all_goals try exact ⟨rfl, rfl⟩
        rename_i fs
        simp only []
        by_cases hl : fs.length = 0
        · simp [hl]
        · rw [if_neg hl]
          by_cases hkey : key = ""
          · have ih := appendFields_keeps fuel s ctx fs b true
            simpa [hkey, closeGroup_h] using ih
          · have ih := appendFields_keeps fuel (s.openGroup key) ctx fs b true
            simpa [hkey, closeGroup_h, openGroup_h] using ih
      · rw [if_neg hg]
        simp [appendValue_h, appendKey_h]
termination_by (fuel, sizeOf f, 2)

theorem appendFields_keeps (fuel : Nat) (s : HandleState) (ctx : Ctx)
    (fs : List Field) (b bg : Bool) :
    (appendFields fuel s ctx fs b bg).1.h.json = s.h.json ∧
    (appendFields fuel s ctx fs b bg).1.h.opts = s.h.opts := by
  rw [appendFields.eq_def]
  have ih := appendFieldsLoop_keeps fuel s ctx fs b
  by_cases hc : (b && !bg && decide ((appendFieldsLoop fuel s ctx fs b).1.buf.length > 0)) = true
  · simpa [hc] using ih
  · simpa [hc] using ih
termination_by (fuel, sizeOf fs, 1)

theorem appendFieldsLoop_keeps (fuel : Nat) (s : HandleState) (ctx : Ctx)
    (fs : List Field) (b : Bool) :
    (appendFieldsLoop fuel s ctx fs b).1.h.json = s.h.json ∧
    (appendFieldsLoop fuel s ctx fs b).1.h.opts = s.h.opts := by
  match fs with
  | [] =>
    rw [appendFieldsLoop.eq_def]
    simp
  | f :: rest =>
    rw [appendFieldsLoop.eq_def]
    have ih1 := appendField_keeps fuel s ctx f b
    have ih2 := appendFieldsLoop_keeps fuel (appendField fuel s ctx f b).1 ctx rest b
    simp only []
    exact ⟨ih2.1.trans ih1.1, ih2.2.trans ih1.2⟩
termination_by (fuel, sizeOf fs, 0)

end

mutual

/-- The accumulated segment list is append-only and never read by the
field machine: prepending segments to the input state prepends them,
unchanged, to the output state. -/
theorem appendField_preF (fuel : Nat) (s : HandleState) (ctx : Ctx)
    (f : Field) (b : Bool) (p : List PreAttr) :
    appendField fuel (s.setPre (p ++ s.h.preformattedAttrs)) ctx f b =
      ((appendField fuel s ctx f b).1.setPre
        (p ++ (appendField fuel s ctx f b).1.h.preformattedAttrs),
       (appendField fuel s ctx f b).2) := by
  simp only [appendField.eq_def, HandleState.setPre]
  cases hrep : s.h.opts.Replacer with
  | none => simpa [HandleState.setPre] using appendFieldPost_preF fuel s ctx f b p
  | some rep =>
    by_cases hk : f.value.kind = Kind.group
    · simpa [hk, HandleState.setPre] using appendFieldPost_preF fuel s ctx f b p
    · by_cases hf : fuel = 0
      · simp [hk, hf, HandleState.setPre]
      · simpa [hk, hf, HandleState.setPre] using
          appendFieldPost_preF (fuel - 1) s ctx (rep ctx (s.groups.getD []) f) b p
termination_by (fuel, sizeOf f, 3)

theorem appendFieldPost_preF (fuel : Nat) (s : HandleState) (ctx : Ctx)
    (f : Field) (b : Bool) (p : List PreAttr) :
    appendFieldPost fuel (s.setPre (p ++ s.h.preformattedAttrs)) ctx f b =
      ((appendFieldPost fuel s ctx f b).1.setPre
        (p ++ (appendFieldPost fuel s ctx f b).1.h.preformattedAttrs),
       (appendFieldPost fuel s ctx f b).2) := by
  obtain ⟨key, n, a, k⟩ := f
  rw [appendFieldPost.eq_def, appendFieldPost.eq_def]
  simp only []
  by_cases he : (Field.mk key (.mk n a k)).isEmpty
  · simp [he]
  · by_cases hv : k = Kind.valuer
    · subst hv
      rw [appendKey_setPre]
      by_cases hb : b
      · subst hb
        simp only [he, Bool.false_eq_true, if_false, if_true, ite_true, ite_false]
        refine Prod.ext ?_ rfl
        apply HandleState.extEq <;>
          simp [HandleState.setPre, appendKey_h, CommonHandler.mk.injEq]
      · simp only [he, hb, Bool.false_eq_true, if_false, ite_false]
        rw [appendValue_setPre]
        refine Prod.ext ?_ rfl
        apply HandleState.extEq <;>
          simp [HandleState.setPre, appendValue_h, appendKey_h]
    · by_cases hg : k = Kind.group
      · subst hg
        simp only [he, hv, Bool.false_eq_true, if_false, ite_false, if_true, ite_true,
          reduceCtorEq, reduceIte]
        cases a
        all_goals try rfl
        rename_i fs
        simp only []
        by_cases hl : fs.length = 0
        · simp [hl]
        · simp only [hl, if_false, ite_false]
          by_cases hkey : key = ""
          · simp only [hkey, ne_eq, not_true_eq_false, if_false, ite_false]
            rw [appendFields_preF fuel s ctx fs b true p]
          · simp only [hkey, ne_eq, not_false_eq_true, if_true, ite_true]
            rw [openGroup_setPre]
            have ih := appendFields_preF fuel (s.openGroup key) ctx fs b true p
            rw [show (s.openGroup key).h.preformattedAttrs = s.h.preformattedAttrs by
              rw [openGroup_h]] at ih
            rw [ih, closeGroup_setPre]
            simp [closeGroup_h]
      · simp only [he, hv, hg, Bool.false_eq_true, if_false, ite_false]
        rw [appendKey_setPre, appendValue_setPre]
        refine Prod.ext ?_ rfl
        apply HandleState.extEq <;>
          simp [HandleState.setPre, appendValue_h, appendKey_h]
termination_by (fuel, sizeOf f, 2)

theorem appendFields_preF (fuel : Nat) (s : HandleState) (ctx : Ctx)
    (fs : List Field) (b bg : Bool) (p : List PreAttr) :
    appendFields fuel (s.setPre (p ++ s.h.preformattedAttrs)) ctx fs b bg =
      ((appendFields fuel s ctx fs b bg).1.setPre
        (p ++ (appendFields fuel s ctx fs b bg).1.h.preformattedAttrs),
       (appendFields fuel s ctx fs b bg).2) := by
  rw [appendFields.eq_def, appendFields.eq_def]
  have ih := appendFieldsLoop_preF fuel s ctx fs b p
  rw [ih]
  simp only [HandleState.setPre]
  by_cases hc : (b && !bg &&
      decide ((appendFieldsLoop fuel s ctx fs b).1.buf.length > 0)) = true
  · simp only [hc]
    simp [HandleState.setPre]
  · simp only [hc]
    simp [HandleState.setPre, hc]
termination_by (fuel, sizeOf fs, 1)

theorem appendFieldsLoop_preF (fuel : Nat) (s : HandleState) (ctx : Ctx)
    (fs : List Field) (b : Bool) (p : List PreAttr) :
    appendFieldsLoop fuel (s.setPre (p ++ s.h.preformattedAttrs)) ctx fs b =
      ((appendFieldsLoop fuel s ctx fs b).1.setPre
        (p ++ (appendFieldsLoop fuel s ctx fs b).1.h.preformattedAttrs),
       (appendFieldsLoop fuel s ctx fs b).2) := by
  match fs with
  | [] =>
    rw [appendFieldsLoop.eq_def, appendFieldsLoop.eq_def]
  | f :: rest =>
    rw [appendFieldsLoop.eq_def, appendFieldsLoop.eq_def]
    simp only []
    have ih1 := appendField_preF fuel s ctx f b p
    rw [ih1]
    have ih2 := appendFieldsLoop_preF fuel (appendField fuel s ctx f b).1 ctx rest b p
    rw [ih2]
termination_by (fuel, sizeOf fs, 0)

end

mutual

/-- Per-call rendering (isPreformat false) never touches the handler at
all. -/
theorem appendField_hInv (fuel : Nat) (s : HandleState) (ctx : Ctx) (f : Field) :
    (appendField fuel s ctx f false).1.h = s.h := by
  rw [appendField.eq_def]
  cases hrep : s.h.opts.Replacer with
  | none => simpa using appendFieldPost_hInv fuel s ctx f
  | some rep =>
    by_cases hk : f.value.kind = Kind.group
    · simpa [hk] using appendFieldPost_hInv fuel s ctx f
    · by_cases hf : fuel = 0
      · simp [hk, hf]
      · simpa [hk, hf] using
          appendFieldPost_hInv (fuel - 1) s ctx (rep ctx (s.groups.getD []) f)
termination_by (fuel, sizeOf f, 3)

theorem appendFieldPost_hInv (fuel : Nat) (s : HandleState) (ctx : Ctx) (f : Field) :
    (appendFieldPost fuel s ctx f false).1.h = s.h := by
  obtain ⟨key, n, a, k⟩ := f
  rw [appendFieldPost.eq_def]
  simp only []
  by_cases he : (Field.mk key (.mk n a k)).isEmpty
  · simp [he]
  · by_cases hv : k = Kind.valuer
    · subst hv
      simp only [he, Bool.false_eq_true, if_false, ite_false]
      simp [appendValue_h, appendKey_h]
    · by_cases hg : k = Kind.group
      · subst hg
        simp only [he, hv, Bool.false_eq_true, if_false, ite_false, reduceCtorEq,
          reduceIte, if_true, ite_true]
        cases a
        all_goals try rfl
        rename_i fs
        simp only []
        by_cases hl : fs.length = 0
        · simp [hl]
        · simp only [hl, if_false, ite_false]
          by_cases hkey : key = ""
          · simp only [hkey, ne_eq, not_true_eq_false, if_false, ite_false]
            exact appendFields_hInv fuel s ctx fs true
          · simp only [hkey, ne_eq, not_false_eq_true, if_true, ite_true]
            rw [closeGroup_h, appendFields_hInv fuel (s.openGroup key) ctx fs true,
              openGroup_h]
      · simp only [he, hv, hg, Bool.false_eq_true, if_false, ite_false]
        simp [appendValue_h, appendKey_h]
termination_by (fuel, sizeOf f, 2)

theorem appendFields_hInv (fuel : Nat) (s : HandleState) (ctx : Ctx)
    (fs : List Field) (bg : Bool) :
    (appendFields fuel s ctx fs false bg).1.h = s.h := by
  rw [appendFields.eq_def]
  simpa using appendFieldsLoop_hInv fuel s ctx fs
termination_by (fuel, sizeOf fs, 1)

theorem appendFieldsLoop_hInv (fuel : Nat) (s : HandleState) (ctx : Ctx)
    (fs : List Field) :
    (appendFieldsLoop fuel s ctx fs false).1.h = s.h := by
  match fs with
  | [] => rw [appendFieldsLoop.eq_def]
  | f :: rest =>
    rw [appendFieldsLoop.eq_def]
    simp only []
    exact (appendFieldsLoop_hInv fuel (appendField fuel s ctx f false).1 ctx
      rest).trans (appendField_hInv fuel s ctx f)
termination_by (fuel, sizeOf fs, 0)

end

/-- `appendNonBuiltIns` never touches the handler. -/
theorem appendNonBuiltIns_hInv (fuel : Nat) (s : HandleState) (ctx : Ctx)
    (kvs : List GoAny) :
    (appendNonBuiltIns fuel s ctx kvs).h = s.h := by
  match kvs with
  | [] =>
    rw [appendNonBuiltIns.eq_def]
  | x :: rest =>
    rw [appendNonBuiltIns.eq_def]
    simp only []
    exact (appendNonBuiltIns_hInv fuel
      (appendField fuel s ctx (kvsToField (x :: rest)).1 false).1 ctx
      (kvsToField (x :: rest)).2).trans (appendField_hInv fuel s ctx _)
termination_by kvs.length
decreasing_by
  apply kvsToField_rest_lt
  simp

mutual

/-- In per-call mode the machine never reads the output buffer: bytes
already in it pass through unchanged in front of whatever the machine
appends. -/
theorem appendField_bufF (fuel : Nat) (s : HandleState) (ctx : Ctx)
    (f : Field) (b0 : String) :
    appendField fuel (s.withBufPre b0) ctx f false =
      ((appendField fuel s ctx f false).1.withBufPre b0,
       (appendField fuel s ctx f false).2) := by
  rw [appendField.eq_def, appendField.eq_def]
  simp only [withBufPre_h, withBufPre_groups]
  cases hrep : s.h.opts.Replacer with
  | none => simpa using appendFieldPost_bufF fuel s ctx f b0
  | some rep =>
    by_cases hk : f.value.kind = Kind.group
    · simpa [hk] using appendFieldPost_bufF fuel s ctx f b0
    · by_cases hf : fuel = 0
      · simp [hk, hf]
      · simpa [hk, hf] using
          appendFieldPost_bufF (fuel - 1) s ctx (rep ctx (s.groups.getD []) f) b0
termination_by (fuel, sizeOf f, 3)

theorem appendFieldPost_bufF (fuel : Nat) (s : HandleState) (ctx : Ctx)
    (f : Field) (b0 : String) :
    appendFieldPost fuel (s.withBufPre b0) ctx f false =
      ((appendFieldPost fuel s ctx f false).1.withBufPre b0,
       (appendFieldPost fuel s ctx f false).2) := by
  obtain ⟨key, n, a, k⟩ := f
  rw [appendFieldPost.eq_def, appendFieldPost.eq_def]
  simp only []
  by_cases he : (Field.mk key (.mk n a k)).isEmpty
  · simp [he]
  · by_cases hv : k = Kind.valuer
    · subst hv
      simp only [he, Bool.false_eq_true, if_false, ite_false]
      rw [appendKey_bufPre, appendValue_bufPre]
      simp
    · by_cases hg : k = Kind.group
      · subst hg
        simp only [he, hv, Bool.false_eq_true, if_false, ite_false, reduceCtorEq,
          reduceIte, if_true, ite_true]
        cases a
        all_goals try rfl
        rename_i fs
        simp only []
        by_cases hl : fs.length = 0
        · simp [hl]
        · simp only [hl, if_false, ite_false]
          by_cases hkey : key = ""
          · simp only [hkey, ne_eq, not_true_eq_false, if_false, ite_false]
            rw [appendFields_bufF fuel s ctx fs true b0]
          · simp only [hkey, ne_eq, not_false_eq_true, if_true, ite_true]
            rw [openGroup_bufPre, appendFields_bufF fuel (s.openGroup key) ctx fs true b0,
              closeGroup_bufPre]
      · simp only [he, hv, hg, Bool.false_eq_true, if_false, ite_false]
        rw [appendKey_bufPre, appendValue_bufPre]
termination_by (fuel, sizeOf f, 2)

theorem appendFields_bufF (fuel : Nat) (s : HandleState) (ctx : Ctx)
    (fs : List Field) (bg : Bool) (b0 : String) :
    appendFields fuel (s.withBufPre b0) ctx fs false bg =
      ((appendFields fuel s ctx fs false bg).1.withBufPre b0,
       (appendFields fuel s ctx fs false bg).2) := by
  rw [appendFields.eq_def, appendFields.eq_def]
  simpa using appendFieldsLoop_bufF fuel s ctx fs b0
termination_by (fuel, sizeOf fs, 1)

theorem appendFieldsLoop_bufF (fuel : Nat) (s : HandleState) (ctx : Ctx)
    (fs : List Field) (b0 : String) :
    appendFieldsLoop fuel (s.withBufPre b0) ctx fs false =
      ((appendFieldsLoop fuel s ctx fs false).1.withBufPre b0,
       (appendFieldsLoop fuel s ctx fs false).2) := by
  match fs with
  | [] => rw [appendFieldsLoop.eq_def, appendFieldsLoop.eq_def]
  | f :: rest =>
    rw [appendFieldsLoop.eq_def, appendFieldsLoop.eq_def]
    simp only []
    rw [appendField_bufF fuel s ctx f b0]
    rw [appendFieldsLoop_bufF fuel (appendField fuel s ctx f false).1 ctx rest b0]
termination_by (fuel, sizeOf fs, 0)

end

/-- `appendNonBuiltIns` never reads the output buffer. -/
theorem appendNonBuiltIns_bufF (fuel : Nat) (s : HandleState) (ctx : Ctx)
    (kvs : List GoAny) (b0 : String) :
    appendNonBuiltIns fuel (s.withBufPre b0) ctx kvs =
      (appendNonBuiltIns fuel s ctx kvs).withBufPre b0 := by
  match kvs with
  | [] =>
    rw [appendNonBuiltIns.eq_def, appendNonBuiltIns.eq_def]
  | x :: rest =>
    rw [appendNonBuiltIns.eq_def, appendNonBuiltIns.eq_def]
    simp only []
    rw [appendField_bufF fuel s ctx (kvsToField (x :: rest)).1 b0]
    exact appendNonBuiltIns_bufF fuel
      (appendField fuel s ctx (kvsToField (x :: rest)).1 false).1 ctx
      (kvsToField (x :: rest)).2 b0
termination_by kvs.length
decreasing_by
  apply kvsToField_rest_lt
  simp

/-- The segments `withFields` appends: the run of the accumulation
machine over the same options but an empty starting segment list. -/
def newSegments (json : Bool) (opts : HandlerOptions) (ctx : Ctx)
    (fields : List Field) : List PreAttr :=
  (appendFields replacerFuel
    (newHandleState ⟨json, opts, []⟩ "" (CommonHandler.attrSep ⟨json, opts, []⟩))
    ctx fields true false).1.h.preformattedAttrs

/-- C9: accumulation is clone-and-extend.  In this pure embedding the
receiver cannot be mutated, so the claim's observable content is: the
result keeps the receiver's encoding flag and options, its segment list
is the receiver's extended at the end by segments that depend only on
the options, encoding flag, context and fields, and a list consisting
entirely of empty groups returns the receiver itself unchanged. -/
theorem withFields_clone_extends (h : CommonHandler) (ctx : Ctx)
    (fields : List Field) :
    (countEmptyGroups fields = fields.length → h.withFields ctx fields = h) ∧
    (h.withFields ctx fields).json = h.json ∧
    (h.withFields ctx fields).opts = h.opts ∧
    (h.withFields ctx fields).preformattedAttrs =
      h.preformattedAttrs ++
        (if countEmptyGroups fields = fields.length then []
         else newSegments h.json h.opts ctx fields) := by
  by_cases hall : countEmptyGroups fields = fields.length
  · simp [CommonHandler.withFields, hall]
  · have hstate : newHandleState h "" h.attrSep =
        (newHandleState ⟨h.json, h.opts, []⟩ ""
          (CommonHandler.attrSep ⟨h.json, h.opts, []⟩)).setPre
          (h.preformattedAttrs ++
            (newHandleState ⟨h.json, h.opts, []⟩ ""
              (CommonHandler.attrSep ⟨h.json, h.opts, []⟩)).h.preformattedAttrs) := by
      obtain ⟨j, o, p⟩ := h
      simp [newHandleState, HandleState.setPre, CommonHandler.attrSep]
    have hkeeps := appendFields_keeps replacerFuel
      (newHandleState ⟨h.json, h.opts, []⟩ ""
        (CommonHandler.attrSep ⟨h.json, h.opts, []⟩)) ctx fields true false
    refine ⟨fun hc => absurd hc hall, ?_, ?_, ?_⟩
    · simp only [CommonHandler.withFields, hall, if_false, ite_false, hstate,
        appendFields_preF, setPre_h_json]
      exact hkeeps.1
    · simp only [CommonHandler.withFields, hall, if_false, ite_false, hstate,
        appendFields_preF, setPre_h_opts]
      exact hkeeps.2
    · simp only [CommonHandler.withFields, hall, if_false, ite_false, hstate,
        appendFields_preF, setPre_h_pre, newSegments]

/-- Witness for C9: the empty-group fast path at a concrete handler,
and a concrete extension. -/
theorem withFields_clone_extends_witness :
    (CommonHandler.mk false ⟨"", none⟩ []).withFields ctx0
      [Field.mk "g" (GroupValue [])] = CommonHandler.mk false ⟨"", none⟩ [] ∧
    ((CommonHandler.mk false ⟨"", none⟩ []).withFields ctx0
      [ String' "k" "v"]).preformattedAttrs =
      [] ++ (if countEmptyGroups [ String' "k" "v"] = [ String' "k" "v"].length
        then [] else newSegments false ⟨"", none⟩ ctx0 [ String' "k" "v"]) :=
  ⟨(withFields_clone_extends (CommonHandler.mk false ⟨"", none⟩ []) ctx0
      [Field.mk "g" (GroupValue [])]).1 (by simp [countEmptyGroups, GroupValue,
        Value.isEmptyGroup, Value.kind, Value.num, Field.value]),
   (withFields_clone_extends (CommonHandler.mk false ⟨"", none⟩ []) ctx0
      [ String' "k" "v"]).2.2.2⟩

/-- With no replacer, a run over fields that are all empty contributes
nothing and leaves the state untouched. -/
theorem appendFieldsLoop_allEmpty (fuel : Nat) (s : HandleState) (ctx : Ctx)
    (fs : List Field) (b : Bool) (hrep : s.h.opts.Replacer = none)
    (hall : ∀ f ∈ fs, f.isEmpty = true) :
    appendFieldsLoop fuel s ctx fs b = (s, false) := by
  match fs with
  | [] => rw [appendFieldsLoop.eq_def]
  | f :: rest =>
    have hf1 : appendField fuel s ctx f b = (s, false) := by
      rw [appendField.eq_def]
      simp only [hrep]
      obtain ⟨key, n, a, k⟩ := f
      rw [appendFieldPost.eq_def]
      simp only []
      rw [if_pos (hall _ (by simp))]
    rw [appendFieldsLoop.eq_def]
    simp only [hf1]
    have := appendFieldsLoop_allEmpty fuel s ctx rest b hrep
      (fun f hf => hall f (by simp [hf]))
    simp [this]
termination_by (fuel, sizeOf fs)

/-- A slice with no empty-group members passes through `GroupValue`
unfiltered. -/
theorem groupValue_noEmptyChildren (gs : List Field)
    (hgs : ∀ f ∈ gs, f.value.isEmptyGroup = false) :
    GroupValue gs = Value.mk gs.length (.groupptr gs) .group := by
  have hz : countEmptyGroups gs = 0 := by
    simp only [countEmptyGroups]
    rw [List.filter_eq_nil.mpr (by intro f hf; simp [hgs f hf])]
    rfl
  simp [GroupValue, hz]

/-- With no replacer, rendering a non-empty-key group whose children
are all elided at render time reduces to an open/close pair around a
no-op loop. -/
theorem appendField_group_openclose (fuel : Nat) (s : HandleState) (ctx : Ctx)
    (key : String) (fs : List Field) (hrep : s.h.opts.Replacer = none)
    (hkey : key ≠ "") (hne : fs ≠ [])
    (hall : ∀ f ∈ fs, f.isEmpty = true ∧ f.value.isEmptyGroup = false) :
    appendField fuel s ctx (Field.mk key (GroupValue fs)) false =
      (((s.openGroup key).closeGroup key), true) := by
  have hlen : fs.length ≠ 0 := by simpa [List.length_eq_zero] using hne
  have hloop := appendFieldsLoop_allEmpty fuel (s.openGroup key) ctx fs false
    (by rw [openGroup_h]; exact hrep) (fun f hf => (hall f hf).1)
  rw [groupValue_noEmptyChildren fs (fun f hf => (hall f hf).2),
    appendField.eq_def]
  simp only [hrep]
  rw [appendFieldPost.eq_def]
  simp only []
  rw [if_neg (by simp [Field.isEmpty, Field.key, hkey])]
  simp only [reduceCtorEq, reduceIte, ite_false, if_false, hlen, hkey, ne_eq,
    not_false_eq_true, ite_true, if_true]
  rw [appendFields.eq_def]
  simp [hloop]

/-- C4 amended: a group value with zero children never opens a bracket
or prefix and leaves the state untouched (first conjunct, any mode, any
options).  But a group whose children are merely elided at render time
is not traceless: in text mode the dotted prefix is opened and closed
leaving no output (third conjunct), while in JSON mode the bracket is
written eagerly, so the output gains the fragment key, colon, and an
empty object (second conjunct). -/
theorem group_render_elision (fuel : Nat) (s : HandleState) (ctx : Ctx)
    (key : String) (as fs : List Field) (b : Bool) :
    (countEmptyGroups as = as.length →
      appendField fuel s ctx (Field.mk key (GroupValue as)) b = (s, false)) ∧
    (s.h.json = true → s.h.opts.Replacer = none → s.groups = none → key ≠ "" →
      fs ≠ [] → (∀ f ∈ fs, f.isEmpty = true ∧ f.value.isEmptyGroup = false) →
      appendField fuel s ctx (Field.mk key (GroupValue fs)) false =
        ({ s with buf := s.buf ++ s.sep ++ jsonQuoted key ++ ":" ++ "\x7b" ++ "\x7d",
                  sep := s.h.attrSep }, true)) ∧
    (s.h.json = false → s.h.opts.Replacer = none → s.groups = none → key ≠ "" →
      fs ≠ [] → (∀ f ∈ fs, f.isEmpty = true ∧ f.value.isEmptyGroup = false) →
      appendField fuel s ctx (Field.mk key (GroupValue fs)) false =
        ({ s with sep := s.h.attrSep }, true)) := by
  refine ⟨?_, ?_, ?_⟩
  · intro hall
    have hg0 : GroupValue as = Value.mk 0 (.groupptr []) .group := by
      by_cases hpos : countEmptyGroups as > 0
      · have hmem : ∀ a ∈ as, a.value.isEmptyGroup = true := by
          intro a ha
          by_contra hcon
          have hlt : (as.filter fun a => a.value.isEmptyGroup).length < as.length := by
            apply List.length_filter_lt_length_iff_exists.mpr
            exact ⟨a, ha, by simpa using hcon⟩
          simp only [countEmptyGroups] at hall
          omega
        have hfe : (as.filter fun a => !a.value.isEmptyGroup) = [] := by
          apply List.filter_eq_nil.mpr
          intro f hf
          simp [hmem f hf]
        simp [GroupValue, hpos, hfe]
      · have : as = [] := by
          simp only [countEmptyGroups] at hall hpos
          have := List.length_filter_le (fun a => a.value.isEmptyGroup) as
          have : as.length = 0 := by omega
          exact List.length_eq_zero.mp this
        subst this
        simp [GroupValue, countEmptyGroups]
    rw [hg0, appendField.eq_def]
    cases hrep : s.h.opts.Replacer
    · simp only []
      rw [appendFieldPost.eq_def]
      simp [Field.isEmpty, Value.num, Value.anyPayload]
    · simp only [Field.value, Value.kind, reduceCtorEq, reduceIte, ne_eq,
        not_true_eq_false, if_false, ite_false, not_false_eq_true, if_true, ite_true]
      rw [appendFieldPost.eq_def]
      simp [Field.isEmpty, Value.num, Value.anyPayload]
  · intro hj hrep hgroups hkey hne hall
    rw [appendField_group_openclose fuel s ctx key fs hrep hkey hne hall]
    refine Prod.ext ?_ rfl
    apply HandleState.extEq <;>
      simp [closeGroup_h, closeGroup_buf, closeGroup_sep, closeGroup_prefixBuf,
        closeGroup_groups, openGroup_h, openGroup_buf, openGroup_sep,
        openGroup_prefixBuf, openGroup_groups, hj, hgroups, keyBytes,
        String.append_assoc]
  · intro hj hrep hgroups hkey hne hall
    rw [appendField_group_openclose fuel s ctx key fs hrep hkey hne hall]
    refine Prod.ext ?_ rfl
    apply HandleState.extEq <;>
      simp [closeGroup_h, closeGroup_buf, closeGroup_sep, closeGroup_prefixBuf,
        closeGroup_groups, openGroup_h, openGroup_buf, openGroup_sep,
        openGroup_prefixBuf, openGroup_groups, hj, hgroups, String.append_assoc]

/-- Witness for C4 at concrete inputs: a group whose children are all
empty groups is traceless, while a JSON group whose sole child is elided
only at render time emits its key and an empty object. -/
theorem group_render_elision_witness :
    (appendField 5 (HandleState.mk (CommonHandler.mk true ⟨"", none⟩ []) "" ","
        [] none) ctx0 (Field.mk "g" (GroupValue [Field.mk "e" (GroupValue [])]))
        false =
      (HandleState.mk (CommonHandler.mk true ⟨"", none⟩ []) "" "," [] none,
        false)) ∧
    (appendField 5 (HandleState.mk (CommonHandler.mk true ⟨"", none⟩ []) "" ","
        [] none) ctx0
        (Field.mk "g" (GroupValue [Field.mk "" (Value.mk 0 .nil .any)])) false =
      (HandleState.mk (CommonHandler.mk true ⟨"", none⟩ [])
        ("," ++ jsonQuoted "g" ++ ":" ++ "\x7b" ++ "\x7d") "," [] none, true)) := by
  constructor
  · exact (group_render_elision 5 (HandleState.mk (CommonHandler.mk true
      ⟨"", none⟩ []) "" "," [] none) ctx0 "g" [Field.mk "e" (GroupValue [])] []
      false).1 (by decide)
  · exact (group_render_elision 5 (HandleState.mk (CommonHandler.mk true
      ⟨"", none⟩ []) "" "," [] none) ctx0 "g" []
      [Field.mk "" (Value.mk 0 .nil .any)] false).2.1 rfl rfl rfl (by decide)
      (by simp)
      (by intro f hf; simp only [List.mem_singleton] at hf; subst hf;
          exact ⟨rfl, rfl⟩)

/-- Counterexample to C4 as stated: a JSON record for a group `g` whose
sole child is elided at render time (an empty non-group field) contains
the fragment quoted-g, colon, empty object — the group is not traceless,
because the bracket is written eagerly before the children run. -/
theorem group_render_elision_cex :
    List.IsInfix ("\"g\":\x7b\x7d").toList
      (handleRun (CommonHandler.mk true ⟨"", none⟩ []) ctx0 0 "m"
        [GoAny.fieldV (Field.mk "g"
          (GroupValue [Field.mk "" (Value.mk 0 .nil .any)]))]).toList := by
  have h1 : handleRun (CommonHandler.mk true ⟨"", none⟩ []) ctx0 0 "m"
      [GoAny.fieldV (Field.mk "g"
        (GroupValue [Field.mk "" (Value.mk 0 .nil .any)]))] =
      (appendNonBuiltIns replacerFuel
        (HandleState.mk (CommonHandler.mk true ⟨"", none⟩ [])
          "\x7b\"level\":\"INFO\",\"msg\":\"m\"" "," [] none) ctx0
        [GoAny.fieldV (Field.mk "g"
          (GroupValue [Field.mk "" (Value.mk 0 .nil .any)]))]).buf
        ++ "\x7d" ++ "\n" := rfl
  have h2 : appendNonBuiltIns replacerFuel
      (HandleState.mk (CommonHandler.mk true ⟨"", none⟩ [])
        "\x7b\"level\":\"INFO\",\"msg\":\"m\"" "," [] none) ctx0
      [GoAny.fieldV (Field.mk "g"
        (GroupValue [Field.mk "" (Value.mk 0 .nil .any)]))] =
      (appendField replacerFuel
        (HandleState.mk (CommonHandler.mk true ⟨"", none⟩ [])
          "\x7b\"level\":\"INFO\",\"msg\":\"m\"" "," [] none) ctx0
        (Field.mk "g" (GroupValue [Field.mk "" (Value.mk 0 .nil .any)]))
        false).1 := by
    rw [appendNonBuiltIns.eq_def]
    simp only [kvsToField]
    rw [appendNonBuiltIns.eq_def]
  have h3 := appendField_group_openclose replacerFuel
    (HandleState.mk (CommonHandler.mk true ⟨"", none⟩ [])
      "\x7b\"level\":\"INFO\",\"msg\":\"m\"" "," [] none) ctx0 "g"
    [Field.mk "" (Value.mk 0 .nil .any)] rfl (by decide) (by simp)
    (by intro f hf; simp only [List.mem_singleton] at hf; subst hf;
        exact ⟨rfl, rfl⟩)
  have h4 : (((HandleState.mk (CommonHandler.mk true ⟨"", none⟩ [])
      "\x7b\"level\":\"INFO\",\"msg\":\"m\"" "," [] none).openGroup
        "g").closeGroup "g").buf =
      "\x7b\"level\":\"INFO\",\"msg\":\"m\",\"g\":\x7b\x7d" := by decide
  rw [h1, h2, h3, h4]
  decide

/-- A JSON handler built with a non-empty name holds exactly one
accumulated segment: separator, quoted `logger` key, colon, quoted
name. -/
theorem newCommonHandler_json_named (name : String) (hname : name ≠ "") :
    newCommonHandler true ⟨name, none⟩ =
      CommonHandler.mk true ⟨name, none⟩
        [⟨"," ++ jsonQuoted NameKey ++ ":" ++ jsonQuoted name, none⟩] := by
  have hfield : appendField replacerFuel
      (HandleState.mk (CommonHandler.mk true ⟨name, none⟩ []) "" "," [] none)
      ctx0 (String' NameKey name) true =
      (HandleState.mk (CommonHandler.mk true ⟨name, none⟩ [])
        ("" ++ "," ++ jsonQuoted NameKey ++ ":" ++ jsonQuoted name) "," []
        none, true) := by
    rw [appendField.eq_def]
    simp only []
    rw [appendFieldPost.eq_def]
    simp only [String', StringValue]
    rw [if_neg (by simp [Field.isEmpty, Field.key, NameKey])]
    simp only [reduceCtorEq, reduceIte, ite_false, if_false]
    simp [HandleState.appendKey, HandleState.appendStringQ,
      HandleState.appendValue, jsonValueBytes, Value.strPayload,
      CommonHandler.attrSep]
  rw [newCommonHandler]
  simp only []
  rw [if_pos ⟨trivial, hname⟩]
  rw [CommonHandler.withFields]
  rw [if_neg (by simp [countEmptyGroups, String', StringValue,
    Value.isEmptyGroup, Value.kind, Field.value])]
  have hs0 : newHandleState (CommonHandler.mk true ⟨name, none⟩ []) ""
      (CommonHandler.attrSep (CommonHandler.mk true ⟨name, none⟩ [])) =
      HandleState.mk (CommonHandler.mk true ⟨name, none⟩ []) "" "," [] none :=
    rfl
  rw [hs0, appendFields.eq_def]
  simp only []
  rw [appendFieldsLoop.eq_def]
  simp only [hfield]
  rw [appendFieldsLoop.eq_def]
  have hc : (0 : Nat) < ",".length := by decide
  simp [String.length_append, hc]

/-- The bytes a call's ad-hoc key/value arguments contribute, rendered
from an empty buffer with the handler's separator pending. -/
def perCallBytes (h : CommonHandler) (ctx : Ctx) (kvs : List GoAny) : String :=
  (appendNonBuiltIns replacerFuel (newHandleState h "" h.attrSep) ctx kvs).buf

/-- The per-call arguments never read the buffer accumulated before
them: their bytes split off as a suffix. -/
theorem appendNonBuiltIns_buf_split (fuel : Nat) (h : CommonHandler)
    (ctx : Ctx) (kvs : List GoAny) (P sep : String) :
    (appendNonBuiltIns fuel (HandleState.mk h P sep [] none) ctx kvs).buf =
      P ++ (appendNonBuiltIns fuel (HandleState.mk h "" sep [] none) ctx
        kvs).buf := by
  have hb := appendNonBuiltIns_bufF fuel (HandleState.mk h "" sep [] none)
    ctx kvs P
  simp only [HandleState.withBufPre, String.append_empty] at hb
  rw [hb]

set_option maxHeartbeats 2000000 in
set_option maxRecDepth 4000 in
/-- C3 amended: with a JSON handler configured with a non-empty name and
no replacer, every record is the open brace, then the `level` field,
then the accumulated segments — the `logger` field, accumulated at
construction, first among them — then the `msg` field, then the
per-call attributes, then the closing brace and newline.  The `level`
field precedes the `logger` field, not the other way round. -/
theorem handle_json_named (name msg : String) (level : Int) (ctx : Ctx)
    (kvs : List GoAny) (hname : name ≠ "") (hmsg : msg ≠ "") :
    handleRun (newCommonHandler true ⟨name, none⟩) ctx level msg kvs =
      "\x7b" ++ jsonQuoted LevelKey ++ ":" ++ jsonQuoted (levelStringS level)
        ++ ("," ++ jsonQuoted NameKey ++ ":" ++ jsonQuoted name)
        ++ ("," ++ jsonQuoted MessageKey ++ ":" ++ jsonQuoted msg)
        ++ perCallBytes (newCommonHandler true ⟨name, none⟩) ctx kvs
        ++ "\x7d" ++ "\n" := by
  rw [newCommonHandler_json_named name hname]
  have hlen : 0 < ("," ++ jsonQuoted NameKey ++ ":" ++ jsonQuoted name).length := by
    have hc : (0 : Nat) < ",".length := by decide
    simp only [String.length_append]
    omega
  rw [handleRun]
  simp only [newHandleState, HandleState.appendKey, HandleState.appendStringQ,
    appendPreAttrs, CommonHandler.attrSep, List.foldl_cons, List.foldl_nil,
    Option.isSome, hmsg, hlen, reduceIte, ne_eq, not_false_eq_true, ite_true,
    if_true, Bool.not_true, Bool.false_and, Bool.and_self, Bool.false_eq_true,
    ite_false, if_false, gt_iff_lt]
  rw [appendNonBuiltIns_buf_split]
  simp only [perCallBytes, newHandleState, CommonHandler.attrSep,
    Option.isSome, reduceIte, ite_false, if_false]
  simp [String.append_assoc, String.empty_append, String.append_empty]

/-- Witness for C3 at a concrete handler, level, message and empty
argument list. -/
theorem handle_json_named_witness :
    handleRun (newCommonHandler true ⟨"svc", none⟩) ctx0 0 "m" [] =
      "\x7b" ++ jsonQuoted LevelKey ++ ":" ++ jsonQuoted (levelStringS 0)
        ++ ("," ++ jsonQuoted NameKey ++ ":" ++ jsonQuoted "svc")
        ++ ("," ++ jsonQuoted MessageKey ++ ":" ++ jsonQuoted "m")
        ++ perCallBytes (newCommonHandler true ⟨"svc", none⟩) ctx0 []
        ++ "\x7d" ++ "\n" :=
  handle_json_named "svc" "m" 0 ctx0 [] (by decide) (by decide)

/-- Counterexample to C3 as stated: the record of a JSON handler with
name `svc` does not begin with the `logger` field — the level field
comes first, the logger field after it. -/
theorem handle_json_named_cex :
    ¬ List.IsPrefix ("\x7b\"logger\"").toList
      (handleRun (newCommonHandler true ⟨"svc", none⟩) ctx0 0 "m"
        []).toList := by
  have h0 := newCommonHandler_json_named "svc" (by decide)
  rw [h0]
  have h1 : handleRun (CommonHandler.mk true ⟨"svc", none⟩
      [⟨"," ++ jsonQuoted NameKey ++ ":" ++ jsonQuoted "svc", none⟩]) ctx0 0
      "m" [] =
      (appendNonBuiltIns replacerFuel
        (HandleState.mk (CommonHandler.mk true ⟨"svc", none⟩
          [⟨"," ++ jsonQuoted NameKey ++ ":" ++ jsonQuoted "svc", none⟩])
          "\x7b\"level\":\"INFO\",\"logger\":\"svc\",\"msg\":\"m\"" "," []
          none) ctx0 []).buf ++ "\x7d" ++ "\n" := rfl
  rw [h1, appendNonBuiltIns.eq_def]
  decide

end NexuerLog
